import Mathlib

/-!
Verification development for the `pyble` core: the node identity/registry
engine (`pyble/core/node.py`) and the block store (`pyble/core/store.py`).

The Python source is embedded shallowly:
* `sha512` is the digest function used by `q_hash` (hashlib.sha512),
  implemented concretely over byte lists (`List Nat`, each element a byte).
* `Node` is the record type; the process-wide registry (`Node._all`,
  `Node._children`) is threaded explicitly as a `Registry` value.
* Fallible Python code (constructors that raise, `struct` packing,
  UTF-8 decoding) returns `Except PyError`.
-/

set_option maxRecDepth 100000

/-! ### SHA-512 (hashlib.sha512 / `q_hash`) -/

/-- 2^64, the word modulus of SHA-512. -/
def w64 : Nat := 18446744073709551616

/-- All-ones 64-bit word. -/
def maxW : Nat := w64 - 1

/-- Rotate a 64-bit word right by `r`. -/
def rotr (r x : Nat) : Nat := ((x >>> r) ||| (x <<< (64 - r))) % w64

/-- SHA-512 Ch function. -/
def shaCh (e f g : Nat) : Nat := (e &&& f) ^^^ ((e ^^^ maxW) &&& g)

/-- SHA-512 Maj function. -/
def shaMaj (a b c : Nat) : Nat := (a &&& b) ^^^ (a &&& c) ^^^ (b &&& c)

/-- SHA-512 big Sigma0. -/
def bsig0 (x : Nat) : Nat := rotr 28 x ^^^ rotr 34 x ^^^ rotr 39 x

/-- SHA-512 big Sigma1. -/
def bsig1 (x : Nat) : Nat := rotr 14 x ^^^ rotr 18 x ^^^ rotr 41 x

/-- SHA-512 small sigma0. -/
def lsig0 (x : Nat) : Nat := rotr 1 x ^^^ rotr 8 x ^^^ (x >>> 7)

/-- SHA-512 small sigma1. -/
def lsig1 (x : Nat) : Nat := rotr 19 x ^^^ rotr 61 x ^^^ (x >>> 6)

/-- SHA-512 round constants K[0..79]. -/
def shaK : List Nat :=
  [4794697086780616226, 8158064640168781261, 13096744586834688815,
   16840607885511220156, 4131703408338449720, 6480981068601479193,
   10538285296894168987, 12329834152419229976, 15566598209576043074,
   1334009975649890238, 2608012711638119052, 6128411473006802146,
   8268148722764581231, 9286055187155687089, 11230858885718282805,
   13951009754708518548, 16472876342353939154, 17275323862435702243,
   1135362057144423861, 2597628984639134821, 3308224258029322869,
   5365058923640841347, 6679025012923562964, 8573033837759648693,
   10970295158949994411, 12119686244451234320, 12683024718118986047,
   13788192230050041572, 14330467153632333762, 15395433587784984357,
   489312712824947311, 1452737877330783856, 2861767655752347644,
   3322285676063803686, 5560940570517711597, 5996557281743188959,
   7280758554555802590, 8532644243296465576, 9350256976987008742,
   10552545826968843579, 11727347734174303076, 12113106623233404929,
   14000437183269869457, 14369950271660146224, 15101387698204529176,
   15463397548674623760, 17586052441742319658, 1182934255886127544,
   1847814050463011016, 2177327727835720531, 2830643537854262169,
   3796741975233480872, 4115178125766777443, 5681478168544905931,
   6601373596472566643, 7507060721942968483, 8399075790359081724,
   8693463985226723168, 9568029438360202098, 10144078919501101548,
   10430055236837252648, 11840083180663258601, 13761210420658862357,
   14299343276471374635, 14566680578165727644, 15097957966210449927,
   16922976911328602910, 17689382322260857208, 500013540394364858,
   748580250866718886, 1242879168328830382, 1977374033974150939,
   2944078676154940804, 3659926193048069267, 4368137639120453308,
   4836135668995329356, 5532061633213252278, 6448918945643986474,
   6902733635092675308, 7801388544844847127]

/-- SHA-512 initial hash state H[0..7]. -/
def shaH0 : List Nat :=
  [7640891576956012808, 13503953896175478587, 4354685564936845355,
   11912009170470909681, 5840696475078001361, 11170449401992604703,
   2270897969802886507, 6620516959819538809]

/-- Big-endian byte expansion of `n` into `w` bytes. -/
def beBytes : Nat → Nat → List Nat
  | 0, _ => []
  | w + 1, n => beBytes w (n / 256) ++ [n % 256]

/-- SHA-512 padding: append 0x80, zero bytes, and the 16-byte bit length. -/
def padMsg (m : List Nat) : List Nat :=
  m ++ [128] ++ List.replicate ((128 - (m.length + 17) % 128) % 128) 0
    ++ beBytes 16 (8 * m.length)

/-- Split a padded message into 128-byte blocks. -/
def toBlocksAux : Nat → List Nat → List (List Nat)
  | 0, _ => []
  | _ + 1, [] => []
  | fuel + 1, l => l.take 128 :: toBlocksAux fuel (l.drop 128)

/-- Split a padded message into 128-byte blocks. -/
def toBlocks (l : List Nat) : List (List Nat) := toBlocksAux l.length l

/-- Combine big-endian bytes into 64-bit words, 8 bytes at a time. -/
def bytesToWords : List Nat → List Nat
  | b0 :: b1 :: b2 :: b3 :: b4 :: b5 :: b6 :: b7 :: rest =>
      (((((((b0 * 256 + b1) * 256 + b2) * 256 + b3) * 256 + b4) * 256 + b5)
        * 256 + b6) * 256 + b7) :: bytesToWords rest
  | _ => []

/-- Message-schedule extension: given the 16-word sliding window, produce
the next `n` words of W. -/
def schedAux : Nat → List Nat → List Nat
  | 0, _ => []
  | n + 1, w0 :: w1 :: w2 :: w3 :: w4 :: w5 :: w6 :: w7 :: w8 :: w9 ::
      w10 :: w11 :: w12 :: w13 :: w14 :: w15 :: [] =>
    let wt := (lsig1 w14 + w9 + lsig0 w1 + w0) % w64
    wt :: schedAux n
      [w1, w2, w3, w4, w5, w6, w7, w8, w9, w10, w11, w12, w13, w14, w15, wt]
  | _ + 1, _ => []

/-- Full 80-entry message schedule of one block. -/
def schedule (block : List Nat) : List Nat :=
  let w := bytesToWords block
  w ++ schedAux 64 w

/-- The 80-round compression loop over zipped (W, K). -/
def compressAux : List Nat → List Nat → Nat → Nat → Nat → Nat → Nat → Nat →
    Nat → Nat → List Nat
  | w :: ws, k :: ks, a, b, c, d, e, f, g, h =>
    let t1 := (h + bsig1 e + shaCh e f g + k + w) % w64
    let t2 := (bsig0 a + shaMaj a b c) % w64
    compressAux ws ks ((t1 + t2) % w64) a b c ((d + t1) % w64) e f g
  | _, _, a, b, c, d, e, f, g, h => [a, b, c, d, e, f, g, h]

/-- Process one 128-byte block, updating the 8-word hash state. -/
def blockStep (hs : List Nat) (block : List Nat) : List Nat :=
  match hs with
  | a :: b :: c :: d :: e :: f :: g :: h :: [] =>
    (hs.zip (compressAux (schedule block) shaK a b c d e f g h)).map
      (fun p => (p.1 + p.2) % w64)
  | _ => hs

/-- SHA-512 of a byte list, as the 64-byte digest list. -/
def sha512 (m : List Nat) : List Nat :=
  ((toBlocks (padMsg m)).foldl blockStep shaH0).map (beBytes 8) |>.flatten

/-- `q_hash(b)` from node.py: `sha512(b).digest()`. -/
def q_hash (b : List Nat) : List Nat := sha512 b

/-! ### UTF-8 (str.encode / bytes.decode in node.py) -/

/-- The null character, Python's padding sentinel. -/
def nullChar : Char := Char.ofNat 0

/-- UTF-8 encoding of one code point (CPython str.encode for one char). -/
def utf8Bytes (c : Char) : List Nat :=
  let n := c.toNat
  if n < 128 then [n]
  else if n < 2048 then [192 + n / 64, 128 + n % 64]
  else if n < 65536 then [224 + n / 4096, 128 + n / 64 % 64, 128 + n % 64]
  else [240 + n / 262144, 128 + n / 4096 % 64, 128 + n / 64 % 64, 128 + n % 64]

/-- UTF-8 encoding of a Python string (list of code points). -/
def utf8Encode (s : List Char) : List Nat := (s.map utf8Bytes).flatten

/-- Errors raised by the embedded Python code.  `unicodeError` stands for
`UnicodeDecodeError`, which is a subclass of `ValueError` in Python;
`structError` is `struct.error`, which is not. -/
inductive PyError where
  | valueError
  | typeError
  | syncError
  | keyError
  | unicodeError
  | structError
deriving Repr, DecidableEq

/-- Whether an exception would be caught by `except ValueError`. -/
def PyError.isValueError : PyError → Bool
  | .valueError => true
  | .unicodeError => true
  | _ => false

/-- A decoded code point prepended onto the rest of a decode result. -/
def utf8DecCont (c : Char) : Except PyError (List Char) → Except PyError (List Char)
  | .ok cs => .ok (c :: cs)
  | .error e => .error e

/-- Continuation-byte range check. -/
def contByte (lo hi b : Nat) : Bool := decide (lo ≤ b) && decide (b < hi)

/-- Guard for the second byte of a two-byte sequence. -/
def guard2 (c1 : Nat) : Bool := contByte 128 192 c1

/-- Guard for the trailing bytes of a three-byte sequence (excluding
overlong forms after 0xE0 and surrogates after 0xED). -/
def guard3 (b c1 c2 : Nat) : Bool :=
  contByte (if b == 224 then 160 else 128) (if b == 237 then 160 else 192) c1 &&
    contByte 128 192 c2

/-- Guard for the trailing bytes of a four-byte sequence (excluding
overlong forms after 0xF0 and values above U+10FFFF after 0xF4). -/
def guard4 (b c1 c2 c3 : Nat) : Bool :=
  (contByte (if b == 240 then 144 else 128) (if b == 244 then 144 else 192) c1 &&
    contByte 128 192 c2) && contByte 128 192 c3

/-- The code point of a two-byte sequence. -/
def char2 (b c1 : Nat) : Char := Char.ofNat ((b - 192) * 64 + (c1 - 128))

/-- The code point of a three-byte sequence. -/
def char3 (b c1 c2 : Nat) : Char :=
  Char.ofNat ((b - 224) * 4096 + (c1 - 128) * 64 + (c2 - 128))

/-- The code point of a four-byte sequence. -/
def char4 (b c1 c2 c3 : Nat) : Char :=
  Char.ofNat ((b - 240) * 262144 + (c1 - 128) * 4096 + (c2 - 128) * 64 +
    (c3 - 128))

/-- Strict UTF-8 decoding, with fuel (one unit per decoded code point; the
fuel never runs out when it starts at the byte length, since every code
point consumes at least one byte).  Rejects truncated input, stray
continuation bytes, overlong forms, surrogates and values above U+10FFFF,
as CPython bytes.decode does. -/
def utf8DecodeAux : Nat → List Nat → Except PyError (List Char)
  | _, [] => .ok []
  | 0, _ :: _ => .error .unicodeError
  | fuel + 1, b :: rest =>
    if b < 128 then utf8DecCont (Char.ofNat b) (utf8DecodeAux fuel rest)
    else if b < 194 then .error .unicodeError
    else if b < 224 then
      match rest with
      | [] => .error .unicodeError
      | c1 :: rest2 =>
        if guard2 c1 then utf8DecCont (char2 b c1) (utf8DecodeAux fuel rest2)
        else .error .unicodeError
    else if b < 240 then
      match rest with
      | c1 :: c2 :: rest2 =>
        if guard3 b c1 c2 then
          utf8DecCont (char3 b c1 c2) (utf8DecodeAux fuel rest2)
        else .error .unicodeError
      | _ => .error .unicodeError
    else if b < 245 then
      match rest with
      | c1 :: c2 :: c3 :: rest2 =>
        if guard4 b c1 c2 c3 then
          utf8DecCont (char4 b c1 c2 c3) (utf8DecodeAux fuel rest2)
        else .error .unicodeError
      | _ => .error .unicodeError
    else .error .unicodeError

/-- Strict UTF-8 decoding (CPython bytes.decode). -/
def utf8Decode (l : List Nat) : Except PyError (List Char) :=
  utf8DecodeAux l.length l

/-! ### Byte-level helpers (struct.pack / bytes.rstrip) -/

/-- `bytes.rstrip(b'\x00')`: drop trailing zero bytes. -/
def rstrip0 (l : List Nat) : List Nat := (l.reverse.dropWhile (· == 0)).reverse

/-- One `struct.pack` fixed-width `s` field: truncate or null-pad to width. -/
def packField (w : Nat) (b : List Nat) : List Nat :=
  b.take w ++ List.replicate (w - b.length) 0

/-! ### Node data model (node.py) -/

/-- `DIGEST_SIZE` from node.py (sha512 digest size). -/
def DIGEST_SIZE : Nat := 64

/-- `STORY_SIZE = DIGEST_SIZE * (2 ** 4 - 2)` from node.py. -/
def STORY_SIZE : Nat := DIGEST_SIZE * (2 ^ 4 - 2)

/-- `TOTAL_SIZE = STORY_SIZE + 2 * DIGEST_SIZE` from node.py. -/
def TOTAL_SIZE : Nat := STORY_SIZE + 2 * DIGEST_SIZE

mutual
/-- A `Node` instance: its `_story` string and its `_parent` slot. -/
inductive Node where
  | mk (story : List Char) (parent : Parent)

/-- The `_parent` slot of a node: `None`, a raw bytes digest, or another
node instance. -/
inductive Parent where
  | null : Parent
  | digest (d : List Nat) : Parent
  | resolved (p : Node) : Parent
end

/-- `self._story`. -/
def Node.story : Node → List Char
  | .mk s _ => s

/-- `self._parent`. -/
def Node.parentRef : Node → Parent
  | .mk _ p => p

mutual
/-- The value of `Node.sid`: `q_hash(self.pid + self.story.encode('utf-8'))`.
`sid` is a pure function of the node's structural content (see
`Node.pid_eq_pidBytes` below for the registry-resolved reading). -/
def Node.sid : Node → List Nat
  | .mk story p => q_hash (Parent.pidBytes p ++ utf8Encode story)

/-- The parent-identity bytes contributed by a `_parent` slot: empty for a
root, the digest itself when unresolved, the parent's sid when resolved. -/
def Parent.pidBytes : Parent → List Nat
  | .null => []
  | .digest d => d
  | .resolved p => Node.sid p
end

/-- A key or value of the class dictionaries `Node._all` / `Node._children`:
either a raw bytes digest or a node instance. -/
abbrev RegEntry := List Nat ⊕ Node

/-- The identity digest of a registry entry. -/
def RegEntry.idBytes : RegEntry → List Nat
  | .inl b => b
  | .inr n => n.sid

/-- `Node.__eq__` between two node instances: compare `pid` and `story`.
The `pid` property's value is independent of the registry state in any
well-formed state (`Node.pid_eq` below), so the structural
`Parent.pidBytes` is used here. -/
def Node.eqPy (self other : Node) : Bool :=
  (Parent.pidBytes other.parentRef == Parent.pidBytes self.parentRef) &&
    (other.story == self.story)

/-- Python equality between dictionary keys of `Node._all`/`Node._children`:
bytes compare by value, a node compares to bytes through its sid, and two
nodes compare by `Node.__eq__`. -/
def pyKeyEq : RegEntry → RegEntry → Bool
  | .inl b, .inl c => b == c
  | .inl b, .inr n => b == n.sid
  | .inr n, .inl b => b == n.sid
  | .inr n, .inr m => Node.eqPy n m

/-- The process-wide registry: `Node._all` (a dict whose keys and values are
nodes or raw digests) and `Node._children` (a dict from the same keys to
sets of child nodes). -/
structure Registry where
  all : List (RegEntry × RegEntry)
  children : List (RegEntry × List Node)

/-- The initial, empty registry. -/
def Registry.empty : Registry := ⟨[], []⟩

/-- Dict update `d[k] = v` with Python semantics: an existing equal key is
kept and only its value replaced; otherwise the pair is appended. -/
def updPairs {α : Type} : List (RegEntry × α) → RegEntry → α → List (RegEntry × α)
  | [], k, v => [(k, v)]
  | (k0, v0) :: rest, k, v =>
    if pyKeyEq k k0 then (k0, v) :: rest else (k0, v0) :: updPairs rest k v

/-- `key in Node._all`. -/
def Registry.memAll (reg : Registry) (k : RegEntry) : Bool :=
  reg.all.any fun e => pyKeyEq k e.1

/-- `Node._all[key]`, as an option. -/
def Registry.getAll (reg : Registry) (k : RegEntry) : Option RegEntry :=
  (reg.all.find? fun e => pyKeyEq k e.1).map Prod.snd

/-- `Node._all[key] = value`. -/
def Registry.setAll (reg : Registry) (k v : RegEntry) : Registry :=
  { reg with all := updPairs reg.all k v }

/-- `key in Node._children`. -/
def Registry.memChildren (reg : Registry) (k : RegEntry) : Bool :=
  reg.children.any fun e => pyKeyEq k e.1

/-- `Node._children[key]`, as an option. -/
def Registry.getChildren (reg : Registry) (k : RegEntry) : Option (List Node) :=
  (reg.children.find? fun e => pyKeyEq k e.1).map Prod.snd

/-- `Node._children[key] = value`. -/
def Registry.setChildren (reg : Registry) (k : RegEntry) (v : List Node) : Registry :=
  { reg with children := updPairs reg.children k v }

/-- `WeakSet.add`: insert a node unless an equal one is present. -/
def wsAdd (s : List Node) (n : Node) : List Node :=
  if s.any fun m => Node.eqPy m n then s else s ++ [n]

/-! ### Node operations (node.py) -/

/-- The parent-registration block of `Node.__init__` (lines 44-53): place a
placeholder for an unknown parent in both class dictionaries, fail with
`SyncError` when exactly one of them knows the parent, then add `self` to
the parent's child set. -/
def parentStep (pk : RegEntry) (self : Node) (reg : Registry) :
    Except PyError Registry :=
  let notPis := !(reg.memAll pk)
  let notPic := !(reg.memChildren pk)
  let step : Except PyError Registry :=
    if notPis && notPic then .ok ((reg.setAll pk pk).setChildren pk [])
    else if notPis != notPic then .error .syncError
    else .ok reg
  match step with
  | .error e => .error e
  | .ok reg1 =>
    match reg1.getChildren pk with
    | none => .error .keyError
    | some set => .ok (reg1.setChildren pk (wsAdd set self))

/-- `Node.__init__(story, parent)`: validate the story, register the parent
(or fail), then register the node itself in both class dictionaries. -/
def Node.init (story : List Char) (parent : Parent) (reg : Registry) :
    Except PyError (Node × Registry) :=
  if story.length > STORY_SIZE then .error .valueError
  else if story.contains nullChar then .error .valueError
  else
    let self : Node := .mk story parent
    let afterParent : Except PyError Registry :=
      match parent with
      | .null => .ok reg
      | .digest d => parentStep (.inl d) self reg
      | .resolved q => parentStep (.inr q) self reg
    match afterParent with
    | .error e => .error e
    | .ok reg1 =>
      let reg2 := reg1.setAll (.inr self) (.inr self)
      let reg3 :=
        if reg2.memChildren (.inr self) then reg2
        else reg2.setChildren (.inr self) []
      .ok (self, reg3)

/-- The `Node.parent` property: `self._all[self._parent]`, falling back to
the raw `_parent` slot on `KeyError`. -/
def Node.parent (n : Node) (reg : Registry) : Option RegEntry :=
  match n.parentRef with
  | .null => none
  | .digest d =>
    match reg.getAll (.inl d) with
    | some v => some v
    | none => some (.inl d)
  | .resolved p =>
    match reg.getAll (.inr p) with
    | some v => some v
    | none => some (.inr p)

/-- The `Node.pid` property: empty for no parent, the digest for a bytes
parent, `parent.sid` for a node parent. -/
def Node.pid (n : Node) (reg : Registry) : List Nat :=
  match n.parent reg with
  | none => []
  | some (.inl d) => d
  | some (.inr p) => p.sid

/-- The `Node.sid` property as the source computes it:
`q_hash(self.pid + self.story.encode('utf-8'))`. -/
def Node.sidR (n : Node) (reg : Registry) : List Nat :=
  q_hash (n.pid reg ++ utf8Encode n.story)

/-- `Node.branch(story)`: create a child with `self` as parent and add it to
`self`'s child set. -/
def Node.branch (self : Node) (story : List Char) (reg : Registry) :
    Except PyError (Node × Registry) :=
  match Node.init story (.resolved self) reg with
  | .error e => .error e
  | .ok (node, reg1) =>
    match reg1.getChildren (.inr self) with
    | none => .error .keyError
    | some set => .ok (node, reg1.setChildren (.inr self) (wsAdd set node))

/-- Python `!=` between `current.parent` (None, bytes, or a node) and the
`stop` argument of `Node.retrace`, following Python's rich-comparison
dispatch and `Node.__eq__`. -/
def pyNe : Option RegEntry → Option RegEntry → Bool
  | none, none => false
  | none, some _ => true
  | some _, none => true
  | some (.inl d), some (.inl e) => !(d == e)
  | some (.inl d), some (.inr s) => !(d == s.sid)
  | some (.inr p), some (.inl e) => !(e == p.sid)
  | some (.inr p), some (.inr s) => !(Node.eqPy p s)

/-- Whether a resolved `parent` value is a raw bytes digest. -/
def isBytesEntry : Option RegEntry → Bool
  | some (.inl _) => true
  | _ => false

/-- The loop of `Node.retrace`, with explicit fuel; `none` means the fuel
ran out (the Python loop would still be running). -/
def retraceAux : Nat → Node → Option RegEntry → Registry → List Node →
    Option (List Node)
  | 0, _, _, _, _ => none
  | fuel + 1, current, stop, reg, acc =>
    let par := Node.parent current reg
    if pyNe par stop && !(isBytesEntry par) then
      match par with
      | some (.inr p) => retraceAux fuel p stop reg (acc ++ [p])
      | _ => some acc
    else some acc

/-- `Node.retrace(stop)`: walk from `self` toward the root following the
(registry-resolved) parent property. -/
def Node.retrace (n : Node) (stop : Option RegEntry) (reg : Registry) :
    Option (List Node) :=
  retraceAux (reg.all.length + 2) n stop reg [n]

/-- `Node.to_bytes()`: `struct.pack('64s896s64s', pid, story_utf8, sid)`. -/
def Node.to_bytes (n : Node) (reg : Registry) : List Nat :=
  packField DIGEST_SIZE (n.pid reg) ++
    packField STORY_SIZE (utf8Encode n.story) ++
    packField DIGEST_SIZE (n.sidR reg)

/-- `Node.from_bytes(b)`: unpack the three fields, strip null padding from
the story, decode it, rebuild a node (an all-zero parent field means no
parent), and reject the bytes when the embedded sid disagrees with the
recomputed one. -/
def Node.from_bytes (b : List Nat) (reg : Registry) :
    Except PyError (Node × Registry) :=
  if b.length ≠ TOTAL_SIZE then .error .structError
  else
    let parentField := b.take DIGEST_SIZE
    let storyField := (b.drop DIGEST_SIZE).take STORY_SIZE
    let sidField := b.drop (DIGEST_SIZE + STORY_SIZE)
    match utf8Decode (rstrip0 storyField) with
    | .error e => .error e
    | .ok storyChars =>
      let parentArg : Parent :=
        if parentField == List.replicate DIGEST_SIZE 0 then .null
        else .digest parentField
      match Node.init storyChars parentArg reg with
      | .error e => .error e
      | .ok (n, reg1) =>
        if sidField == n.sidR reg1 then .ok (n, reg1) else .error .valueError

/-- A node instance together with its `_sid` cache slot (declared `None` in
`Node.__init__` and filled on the first read of the `sid` property). -/
structure NodeObj where
  node : Node
  sidCache : Option (List Nat)

/-- A freshly constructed instance: `self._sid = None`. -/
def NodeObj.new (n : Node) : NodeObj := ⟨n, none⟩

/-- One read of the `sid` property: return the cache when present,
otherwise compute the digest, store it, and return it. -/
def NodeObj.readSid (o : NodeObj) (reg : Registry) : List Nat × NodeObj :=
  match o.sidCache with
  | some v => (v, o)
  | none =>
    let h := o.node.sidR reg
    (h, { o with sidCache := some h })

/-! ### Block store (store.py) -/

/-- `OPT_SIZE = struct.calcsize('QQQQ')`. -/
def OPT_SIZE : Nat := 32

/-- An in-memory `Store`: the four header fields (`previous` is `None` by
default and a loaded integer after `open_store`). -/
structure Store where
  stored : Nat
  size : Nat
  limit : Nat
  previous : Option Nat

/-- The default field values of `Store.__init__`. -/
def Store.defaults : Store := ⟨0, 16, 2 ^ 20, none⟩

/-- A little-endian 64-bit word from its byte list. -/
def leWord (bs : List Nat) : Nat := bs.foldr (fun b acc => b + 256 * acc) 0

/-- `Store.opt_load`: read 32 bytes from the start of the buffer and unpack
four unsigned 64-bit words; `struct.unpack` fails unless exactly 32 bytes
were read. -/
def Store.opt_load (content : List Nat) :
    Except PyError (Nat × Nat × Nat × Nat) :=
  let b := content.take OPT_SIZE
  if b.length = OPT_SIZE then
    .ok (leWord (b.take 8), leWord ((b.drop 8).take 8),
      leWord ((b.drop 16).take 8), leWord (b.drop 24))
  else .error .structError

/-- `open_store(name)`: open the file (creating an empty one when the name
does not exist), load the header, and build the store from the four loaded
values.  The argument is the existing file's content, or `none` when no
file with that name exists. -/
def open_store (file : Option (List Nat)) : Except PyError Store :=
  let content := match file with | some c => c | none => []
  match Store.opt_load content with
  | .error e => .error e
  | .ok (a, b, c, d) => .ok ⟨a, b, c, some d⟩

/-- `Store.seek_block(i)`: the byte offset of slot `i`. -/
def Store.seek_block_pos (i : Nat) : Nat := OPT_SIZE + TOTAL_SIZE * i

/-- `Store.identify_block(b)`: decode the bytes, swallowing `ValueError`
(including `UnicodeDecodeError`) into "no node"; other exceptions
propagate. -/
def Store.identify_block (b : List Nat) (reg : Registry) :
    Except PyError (Option (Node × Registry)) :=
  match Node.from_bytes b reg with
  | .ok nr => .ok (some nr)
  | .error e => if e.isValueError then .ok none else .error e

/-! ### Derived notions used by the claims -/

/-- `Node.__eq__` against a raw bytes value: `other == self.sid`. -/
def Node.eqBytesPy (self : Node) (other : List Nat) : Bool :=
  other == self.sid

/-- `Node.__hash__` depends only on the sid bytes; we record the sid itself
as the hash key. -/
def Node.hashPy (self : Node) : List Nat := self.sid

/-- The dictionary key under which `Node.__init__` registers a parent. -/
def Parent.key : Parent → Option RegEntry
  | .null => none
  | .digest d => some (.inl d)
  | .resolved q => some (.inr q)

/-- The registry consistency invariant of §3: a key is in `Node._all` iff
it is in `Node._children`. -/
def Registry.inv (reg : Registry) : Prop :=
  ∀ k : RegEntry, reg.memAll k = reg.memChildren k

/-- Well-formedness of `Node._all`: every stored value is Python-equal to
its key (true of every state the source can reach, since values are only
ever set to the key object itself or to an equal node). -/
def Registry.WFall (reg : Registry) : Prop :=
  ∀ p ∈ reg.all, pyKeyEq p.1 p.2 = true

/-- No two `Node._all` keys share an identity digest (Python's dict keeps
equal keys unified; distinct keys with equal digests would require a
sha512 collision). -/
def Registry.allNoDupIds (reg : Registry) : Prop :=
  reg.all.Pairwise fun p q => RegEntry.idBytes p.1 ≠ RegEntry.idBytes q.1

/-- The parent slot of the node that decoding a valid node's encoding
rebuilds: a root stays a root, any other parent identity comes back as an
unresolved digest. -/
def recodeParent (p : Parent) : Parent :=
  if Parent.pidBytes p = [] then Parent.null
  else Parent.digest (Parent.pidBytes p)

/-- Root node `R` of the §8 retrace example. -/
def exR : Node := Node.mk ['r'] Parent.null

/-- `A = R.branch("x")` of the retrace example. -/
def exA : Node := Node.mk ['x'] (Parent.resolved exR)

/-- `B = A.branch("y")` of the retrace example. -/
def exB : Node := Node.mk ['y'] (Parent.resolved exA)

/-- Build the retrace example through the source operations and return
`B.retrace()` and `B.retrace(stop=A)`. -/
def exampleRetraces :
    Except PyError (Option (List Node) × Option (List Node)) :=
  match Node.init ['r'] Parent.null Registry.empty with
  | .error e => .error e
  | .ok (r, reg1) =>
    match r.branch ['x'] reg1 with
    | .error e => .error e
    | .ok (a, reg2) =>
      match a.branch ['y'] reg2 with
      | .error e => .error e
      | .ok (b, reg3) =>
        .ok (b.retrace none reg3, b.retrace (some (Sum.inr a)) reg3)


/-- Concrete root node used by witnesses. -/
def exN9 : Node := Node.mk ['a'] Parent.null

/-- The registry state after constructing `exN9` in an empty registry. -/
def exReg9 : Registry :=
  ⟨[(Sum.inr exN9, Sum.inr exN9)], [(Sum.inr exN9, [])]⟩

/-- A 32-byte store header whose bytes are 1..32 (four little-endian
words). -/
def hdr32 : List Nat :=
  [1, 2, 3, 4, 5, 6, 7, 8, 9, 10, 11, 12, 13, 14, 15, 16, 17, 18, 19, 20,
   21, 22, 23, 24, 25, 26, 27, 28, 29, 30, 31, 32]

/-! ### Basic lemmas -/

/-- NIST test vector: SHA-512 of the empty message. -/
theorem sha512_empty_vector : sha512 [] =
    [207, 131, 225, 53, 126, 239, 184, 189, 241, 84, 40, 80, 214, 109, 128, 7,
     214, 32, 228, 5, 11, 87, 21, 220, 131, 244, 169, 33, 211, 108, 233, 206,
     71, 208, 209, 60, 93, 133, 242, 176, 255, 131, 24, 210, 135, 126, 236, 47,
     99, 185, 49, 189, 71, 65, 122, 129, 165, 56, 50, 122, 249, 39, 218, 62] := by
  decide

/-- NIST test vector: SHA-512 of "abc". -/
theorem sha512_abc_vector : sha512 [97, 98, 99] =
    [221, 175, 53, 161, 147, 97, 122, 186, 204, 65, 115, 73, 174, 32, 65, 49,
     18, 230, 250, 78, 137, 169, 126, 162, 10, 158, 238, 230, 75, 85, 211, 154,
     33, 146, 153, 42, 39, 79, 193, 168, 54, 186, 60, 35, 163, 254, 235, 189,
     69, 77, 68, 35, 100, 60, 232, 14, 42, 154, 201, 79, 165, 76, 164, 159] := by
  decide

theorem compressAux_length (ws : List Nat) : ∀ (ks : List Nat)
    (a b c d e f g h : Nat), (compressAux ws ks a b c d e f g h).length = 8 := by
  induction ws with
  | nil => intro ks a b c d e f g h; cases ks <;> simp [compressAux]
  | cons w ws ih =>
    intro ks a b c d e f g h
    cases ks with
    | nil => simp [compressAux]
    | cons k ks => simpa [compressAux] using ih ..

theorem blockStep_length (hs blk : List Nat) (h : hs.length = 8) :
    (blockStep hs blk).length = 8 := by
  rcases hs with _ | ⟨a, hs⟩
  · simp at h
  rcases hs with _ | ⟨b, hs⟩
  · simp at h
  rcases hs with _ | ⟨c, hs⟩
  · simp at h
  rcases hs with _ | ⟨d, hs⟩
  · simp at h
  rcases hs with _ | ⟨e, hs⟩
  · simp at h
  rcases hs with _ | ⟨f, hs⟩
  · simp at h
  rcases hs with _ | ⟨g, hs⟩
  · simp at h
  rcases hs with _ | ⟨i, hs⟩
  · simp at h
  rcases hs with _ | ⟨j, hs⟩
  · simp [blockStep, List.length_zip, compressAux_length]
  · simp at h

theorem foldl_blockStep_length (blocks : List (List Nat)) :
    ∀ hs : List Nat, hs.length = 8 →
      (blocks.foldl blockStep hs).length = 8 := by
  induction blocks with
  | nil => intro hs h; simpa using h
  | cons blk blocks ih =>
    intro hs h
    simpa [List.foldl_cons] using ih _ (blockStep_length hs blk h)

theorem beBytes_length (w : Nat) : ∀ n : Nat, (beBytes w n).length = w := by
  induction w with
  | zero => intro n; rfl
  | succ w ih => intro n; simp [beBytes, ih]

theorem flatten_beBytes_length (l : List Nat) :
    ((l.map (beBytes 8)).flatten).length = 8 * l.length := by
  induction l with
  | nil => rfl
  | cons x l ih => simp [ih, beBytes_length, Nat.mul_succ, Nat.add_comm]

theorem sha512_length (m : List Nat) : (sha512 m).length = 64 := by
  have h8 : ((toBlocks (padMsg m)).foldl blockStep shaH0).length = 8 :=
    foldl_blockStep_length _ shaH0 (by rfl)
  have hfl := flatten_beBytes_length ((toBlocks (padMsg m)).foldl blockStep shaH0)
  rw [h8] at hfl
  simpa [sha512] using hfl

theorem Node.sid_def (n : Node) :
    Node.sid n = q_hash (Parent.pidBytes n.parentRef ++ utf8Encode n.story) := by
  cases n; rfl

theorem Node.sid_length (n : Node) : (Node.sid n).length = DIGEST_SIZE := by
  rw [Node.sid_def]; exact sha512_length _

theorem Node.eqPy_iff (m n : Node) : Node.eqPy m n = true ↔
    Parent.pidBytes n.parentRef = Parent.pidBytes m.parentRef ∧
      n.story = m.story := by
  simp [Node.eqPy]

theorem Node.eqPy_sid {m n : Node} (h : Node.eqPy m n = true) :
    Node.sid n = Node.sid m := by
  obtain ⟨h1, h2⟩ := (Node.eqPy_iff m n).1 h
  rw [Node.sid_def, Node.sid_def, h1, h2]

theorem pyKeyEq_rfl (k : RegEntry) : pyKeyEq k k = true := by
  cases k <;> simp [pyKeyEq, Node.eqPy]

theorem pyKeyEq_idBytes {a b : RegEntry} (h : pyKeyEq a b = true) :
    RegEntry.idBytes a = RegEntry.idBytes b := by
  cases a <;> cases b <;>
    simp_all [pyKeyEq, RegEntry.idBytes]
  exact (Node.eqPy_sid h).symm

theorem Registry.getAll_eq_some {reg : Registry} {k v : RegEntry}
    (h : reg.getAll k = some v) :
    ∃ k0, (k0, v) ∈ reg.all ∧ pyKeyEq k k0 = true := by
  unfold Registry.getAll at h
  rcases Option.map_eq_some'.1 h with ⟨⟨k0, v0⟩, hfind, hv⟩
  subst hv
  exact ⟨k0, List.mem_of_find?_eq_some hfind,
    by simpa using List.find?_some hfind⟩

theorem Node.pid_eq {n : Node} {reg : Registry} (hwf : Registry.WFall reg) :
    Node.pid n reg = Parent.pidBytes n.parentRef := by
  cases href : n.parentRef with
  | null => simp [Node.pid, Node.parent, href, Parent.pidBytes]
  | digest d =>
    cases hga : reg.getAll (Sum.inl d) with
    | none => simp [Node.pid, Node.parent, href, hga, Parent.pidBytes]
    | some v =>
      rcases Registry.getAll_eq_some hga with ⟨k0, hmem, hk⟩
      have h1 : RegEntry.idBytes (Sum.inl d) = RegEntry.idBytes k0 :=
        pyKeyEq_idBytes hk
      have h2 : RegEntry.idBytes k0 = RegEntry.idBytes v :=
        pyKeyEq_idBytes (hwf _ hmem)
      cases v <;>
        simp_all [Node.pid, Node.parent, href, RegEntry.idBytes, Parent.pidBytes]
  | resolved q =>
    cases hga : reg.getAll (Sum.inr q) with
    | none => simp [Node.pid, Node.parent, href, hga, Parent.pidBytes]
    | some v =>
      rcases Registry.getAll_eq_some hga with ⟨k0, hmem, hk⟩
      have h1 : RegEntry.idBytes (Sum.inr q) = RegEntry.idBytes k0 :=
        pyKeyEq_idBytes hk
      have h2 : RegEntry.idBytes k0 = RegEntry.idBytes v :=
        pyKeyEq_idBytes (hwf _ hmem)
      cases v <;>
        simp_all [Node.pid, Node.parent, href, RegEntry.idBytes, Parent.pidBytes]

theorem Node.sidR_eq {n : Node} {reg : Registry} (hwf : Registry.WFall reg) :
    Node.sidR n reg = Node.sid n := by
  rw [Node.sidR, Node.pid_eq hwf, ← Node.sid_def]

/-! ### Registry update lemmas -/

theorem beqCommList (a b : List Nat) : (a == b) = (b == a) := by
  rw [Bool.eq_iff_iff]
  constructor <;> intro h <;> simp_all [beq_iff_eq]

theorem beqCommChars (a b : List Char) : (a == b) = (b == a) := by
  rw [Bool.eq_iff_iff]
  constructor <;> intro h <;> simp_all [beq_iff_eq]

theorem pyKeyEq_symm (a b : RegEntry) : pyKeyEq a b = pyKeyEq b a := by
  cases a with
  | inl x =>
    cases b with
    | inl y => simp only [pyKeyEq]; exact beqCommList x y
    | inr n => rfl
  | inr n =>
    cases b with
    | inl y => rfl
    | inr m =>
      simp only [pyKeyEq, Node.eqPy]
      rw [beqCommList (Parent.pidBytes m.parentRef),
        beqCommChars m.story n.story]

theorem any_updPairs {α : Type} (l : List (RegEntry × α)) (k : RegEntry)
    (v : α) (probe : RegEntry) :
    (updPairs l k v).any (fun e => pyKeyEq probe e.1) =
      ((l.any fun e => pyKeyEq probe e.1) ||
        (!(l.any fun e => pyKeyEq k e.1) && pyKeyEq probe k)) := by
  induction l with
  | nil => simp [updPairs]
  | cons p rest ih =>
    obtain ⟨k0, v0⟩ := p
    by_cases hk : pyKeyEq k k0 = true
    · simp [updPairs, hk]
    · simp only [Bool.not_eq_true] at hk
      simp [updPairs, hk, ih, Bool.or_assoc]

theorem Registry.memAll_setAll (reg : Registry) (k v probe : RegEntry) :
    (reg.setAll k v).memAll probe =
      (reg.memAll probe || (!reg.memAll k && pyKeyEq probe k)) :=
  any_updPairs reg.all k v probe

theorem Registry.memChildren_setAll (reg : Registry) (k v probe : RegEntry) :
    (reg.setAll k v).memChildren probe = reg.memChildren probe := rfl

theorem Registry.memChildren_setChildren (reg : Registry) (k : RegEntry)
    (v : List Node) (probe : RegEntry) :
    (reg.setChildren k v).memChildren probe =
      (reg.memChildren probe || (!reg.memChildren k && pyKeyEq probe k)) :=
  any_updPairs reg.children k v probe

theorem Registry.memAll_setChildren (reg : Registry) (k : RegEntry)
    (v : List Node) (probe : RegEntry) :
    (reg.setChildren k v).memAll probe = reg.memAll probe := rfl

theorem Registry.getChildren_isSome (reg : Registry) (k : RegEntry) :
    (reg.getChildren k).isSome = reg.memChildren k := by
  unfold Registry.getChildren Registry.memChildren
  cases hf : reg.children.find? fun e => pyKeyEq k e.1 with
  | none =>
    simp only [Option.map_none', Option.isSome_none]
    rw [eq_comm, Bool.eq_false_iff]
    intro hany
    rcases List.any_eq_true.1 hany with ⟨x, hx, hpx⟩
    have hs : (reg.children.find? fun e => pyKeyEq k e.1).isSome :=
      List.find?_isSome.2 ⟨x, hx, hpx⟩
    rw [hf] at hs
    simp at hs
  | some p =>
    simp only [Option.map_some', Option.isSome_some]
    rw [eq_comm]
    exact List.any_eq_true.2
      ⟨p, List.mem_of_find?_eq_some hf, by simpa using List.find?_some hf⟩

theorem WFall_updPairs_self (l : List (RegEntry × RegEntry))
    (hl : ∀ p ∈ l, pyKeyEq p.1 p.2 = true) (k : RegEntry) :
    ∀ p ∈ updPairs l k k, pyKeyEq p.1 p.2 = true := by
  induction l with
  | nil =>
    intro p hp
    simp only [updPairs, List.mem_singleton] at hp
    subst hp
    exact pyKeyEq_rfl k
  | cons q rest ih =>
    obtain ⟨k0, v0⟩ := q
    intro p hp
    by_cases hk : pyKeyEq k k0 = true
    · simp only [updPairs, hk, if_pos] at hp
      rcases List.mem_cons.1 hp with h | h
      · subst h; rw [← pyKeyEq_symm]; exact hk
      · exact hl _ (List.mem_cons_of_mem _ h)
    · simp only [updPairs, hk, if_neg, Bool.not_eq_true] at hp
      rcases List.mem_cons.1 hp with h | h
      · exact h ▸ hl _ (List.mem_cons_self _ _)
      · exact ih (fun p hp => hl _ (List.mem_cons_of_mem _ hp)) p h

theorem Registry.WFall_setAll_self {reg : Registry} (h : Registry.WFall reg)
    (k : RegEntry) : Registry.WFall (reg.setAll k k) :=
  WFall_updPairs_self reg.all h k

theorem Registry.WFall_setChildren {reg : Registry} (h : Registry.WFall reg)
    (k : RegEntry) (v : List Node) : Registry.WFall (reg.setChildren k v) := h

/-! ### `Node.__init__` under the registry invariant -/

theorem parentStep_ok (pk : RegEntry) (self : Node) (reg : Registry)
    (hinv : Registry.inv reg) :
    ∃ reg1, parentStep pk self reg = .ok reg1 ∧ Registry.inv reg1 ∧
      (Registry.WFall reg → Registry.WFall reg1) := by
  have hpk := hinv pk
  by_cases hmem : reg.memAll pk = true
  · have hmc : reg.memChildren pk = true := by rw [← hpk]; exact hmem
    have hgs : (reg.getChildren pk).isSome := by
      rw [Registry.getChildren_isSome, hmc]
    obtain ⟨s, hs⟩ := Option.isSome_iff_exists.1 hgs
    refine ⟨reg.setChildren pk (wsAdd s self), ?_, ?_, ?_⟩
    · simp [parentStep, hmem, hmc, hs]
    · intro probe
      rw [Registry.memChildren_setChildren, Registry.memAll_setChildren, hmc]
      simp [hinv probe]
    · intro hwf; exact Registry.WFall_setChildren hwf _ _
  · have hmemf : reg.memAll pk = false := by simpa using hmem
    have hmcf : reg.memChildren pk = false := by rw [← hpk]; exact hmemf
    have hmcA : ((reg.setAll pk pk).setChildren pk []).memChildren pk = true := by
      rw [Registry.memChildren_setChildren, Registry.memChildren_setAll, hmcf,
        pyKeyEq_rfl]
      simp
    have hgsA : (((reg.setAll pk pk).setChildren pk []).getChildren pk).isSome := by
      rw [Registry.getChildren_isSome, hmcA]
    obtain ⟨s, hs⟩ := Option.isSome_iff_exists.1 hgsA
    refine ⟨((reg.setAll pk pk).setChildren pk []).setChildren pk (wsAdd s self),
      ?_, ?_, ?_⟩
    · simp [parentStep, hmemf, hmcf, hs]
    · intro probe
      simp only [Registry.memAll_setChildren, Registry.memChildren_setChildren,
        Registry.memChildren_setAll, Registry.memAll_setAll, hmemf, hmcf,
        pyKeyEq_rfl, Bool.not_false, Bool.true_and, Bool.not_true,
        Bool.false_and, Bool.or_false, Bool.false_or, hinv probe]
    · intro hwf
      exact Registry.WFall_setChildren
        (Registry.WFall_setChildren (Registry.WFall_setAll_self hwf pk) _ _) _ _

theorem Node.init_ok (story : List Char) (parent : Parent) (reg : Registry)
    (hinv : Registry.inv reg) (hlen : ¬story.length > STORY_SIZE)
    (hnull : story.contains nullChar = false) :
    ∃ reg2, Node.init story parent reg = .ok (Node.mk story parent, reg2) ∧
      Registry.inv reg2 ∧ (Registry.WFall reg → Registry.WFall reg2) := by
  have hnull2 : nullChar ∉ story := by
    intro hm
    have he := List.elem_iff.2 hm
    rw [show story.elem nullChar = story.contains nullChar from rfl, hnull] at he
    cases he
  obtain ⟨reg1, hps, hinv1, hwf1⟩ : ∃ reg1,
      (match parent with
        | Parent.null => Except.ok reg
        | Parent.digest d =>
          parentStep (Sum.inl d) (Node.mk story parent) reg
        | Parent.resolved q =>
          parentStep (Sum.inr q) (Node.mk story parent) reg) = .ok reg1 ∧
        Registry.inv reg1 ∧ (Registry.WFall reg → Registry.WFall reg1) := by
    cases parent with
    | null => exact ⟨reg, rfl, hinv, fun h => h⟩
    | digest d => exact parentStep_ok _ _ _ hinv
    | resolved q => exact parentStep_ok _ _ _ hinv
  by_cases hc :
      (reg1.setAll (Sum.inr (Node.mk story parent))
        (Sum.inr (Node.mk story parent))).memChildren
        (Sum.inr (Node.mk story parent)) = true
  · refine ⟨reg1.setAll (Sum.inr (Node.mk story parent))
      (Sum.inr (Node.mk story parent)), ?_, ?_, ?_⟩
    · simp [Node.init, hlen, hnull, hnull2, hps, hc]
    · intro probe
      have hc1 : reg1.memChildren (Sum.inr (Node.mk story parent)) = true := hc
      have ha1 : reg1.memAll (Sum.inr (Node.mk story parent)) = true := by
        rw [hinv1 _]; exact hc1
      simp only [Registry.memAll_setAll, Registry.memChildren_setAll, ha1,
        Bool.not_true, Bool.false_and, Bool.or_false, hinv1 probe]
    · intro hwf
      exact Registry.WFall_setAll_self (hwf1 hwf) _
  · refine ⟨(reg1.setAll (Sum.inr (Node.mk story parent))
      (Sum.inr (Node.mk story parent))).setChildren
        (Sum.inr (Node.mk story parent)) [], ?_, ?_, ?_⟩
    · simp [Node.init, hlen, hnull, hnull2, hps, hc]
    · intro probe
      have hc1 : reg1.memChildren (Sum.inr (Node.mk story parent)) = false := by
        have := hc
        rw [Registry.memChildren_setAll] at this
        simpa using this
      have ha1 : reg1.memAll (Sum.inr (Node.mk story parent)) = false := by
        rw [hinv1 _]; exact hc1
      simp only [Registry.memAll_setChildren, Registry.memChildren_setChildren,
        Registry.memChildren_setAll, Registry.memAll_setAll, ha1, hc1,
        Bool.not_false, Bool.true_and, hinv1 probe]
    · intro hwf
      exact Registry.WFall_setChildren
        (Registry.WFall_setAll_self (hwf1 hwf) _) _ _

theorem Node.init_inv {story : List Char} {parent : Parent}
    {reg : Registry} {n : Node} {reg2 : Registry} (hinv : Registry.inv reg)
    (h : Node.init story parent reg = .ok (n, reg2)) :
    Registry.inv reg2 ∧ n = Node.mk story parent ∧
      (Registry.WFall reg → Registry.WFall reg2) := by
  by_cases hlen : story.length > STORY_SIZE
  · have heq : Node.init story parent reg = .error PyError.valueError := by
      simp [Node.init, hlen]
    rw [heq] at h
    cases h
  by_cases hnull : story.contains nullChar = true
  · have hm : nullChar ∈ story := List.elem_iff.1 (by
      rw [show story.elem nullChar = story.contains nullChar from rfl, hnull])
    have heq : Node.init story parent reg = .error PyError.valueError := by
      simp [Node.init, hlen, hm]
    rw [heq] at h
    cases h
  obtain ⟨reg2w, heq, hinv2, hwf2⟩ :=
    Node.init_ok story parent reg hinv hlen (by simpa using hnull)
  rw [heq] at h
  cases h
  exact ⟨hinv2, rfl, hwf2⟩

theorem Node.init_err {story : List Char} {parent : Parent} {reg : Registry}
    {e : PyError} (hinv : Registry.inv reg)
    (h : Node.init story parent reg = .error e) : e.isValueError = true := by
  by_cases hlen : story.length > STORY_SIZE
  · have heq : Node.init story parent reg = .error PyError.valueError := by
      simp [Node.init, hlen]
    rw [heq] at h
    cases h
    rfl
  by_cases hnull : story.contains nullChar = true
  · have hm : nullChar ∈ story := List.elem_iff.1 (by
      rw [show story.elem nullChar = story.contains nullChar from rfl, hnull])
    have heq : Node.init story parent reg = .error PyError.valueError := by
      simp [Node.init, hlen, hm]
    rw [heq] at h
    cases h
    rfl
  obtain ⟨reg2w, heq, _, _⟩ :=
    Node.init_ok story parent reg hinv hlen (by simpa using hnull)
  rw [heq] at h
  cases h

theorem char_valid (c : Char) :
    c.toNat < 55296 ∨ (57343 < c.toNat ∧ c.toNat < 1114112) := c.valid

theorem utf8DecodeAux_nil (fuel : Nat) : utf8DecodeAux fuel [] = .ok [] := by
  cases fuel <;> rfl

theorem utf8DecodeAux_cons1 (f b : Nat) (rest : List Nat) (h1 : b < 128) :
    utf8DecodeAux (f + 1) (b :: rest) =
      utf8DecCont (Char.ofNat b) (utf8DecodeAux f rest) := by
  rw [utf8DecodeAux.eq_def]
  simp [h1]

theorem utf8DecodeAux_cons2 (f b c1 : Nat) (rest : List Nat) (hb : 194 ≤ b)
    (hb2 : b < 224) (hg : guard2 c1 = true) :
    utf8DecodeAux (f + 1) (b :: c1 :: rest) =
      utf8DecCont (char2 b c1) (utf8DecodeAux f rest) := by
  have h1 : ¬b < 128 := by omega
  have h2 : ¬b < 194 := by omega
  rw [utf8DecodeAux.eq_def]
  simp [h1, h2, hb2, hg]

theorem utf8DecodeAux_cons3 (f b c1 c2 : Nat) (rest : List Nat) (hb : 224 ≤ b)
    (hb2 : b < 240) (hg : guard3 b c1 c2 = true) :
    utf8DecodeAux (f + 1) (b :: c1 :: c2 :: rest) =
      utf8DecCont (char3 b c1 c2) (utf8DecodeAux f rest) := by
  have h1 : ¬b < 128 := by omega
  have h2 : ¬b < 194 := by omega
  have h3 : ¬b < 224 := by omega
  rw [utf8DecodeAux.eq_def]
  simp [h1, h2, h3, hb2, hg]

theorem utf8DecodeAux_cons4 (f b c1 c2 c3 : Nat) (rest : List Nat)
    (hb : 240 ≤ b) (hb2 : b < 245) (hg : guard4 b c1 c2 c3 = true) :
    utf8DecodeAux (f + 1) (b :: c1 :: c2 :: c3 :: rest) =
      utf8DecCont (char4 b c1 c2 c3) (utf8DecodeAux f rest) := by
  have h1 : ¬b < 128 := by omega
  have h2 : ¬b < 194 := by omega
  have h3 : ¬b < 224 := by omega
  have h4 : ¬b < 240 := by omega
  rw [utf8DecodeAux.eq_def]
  simp [h1, h2, h3, h4, hb2, hg]

theorem guard2_true (n : Nat) : guard2 (128 + n % 64) = true := by
  simp only [guard2, contByte, Bool.and_eq_true, decide_eq_true_eq]
  omega

theorem guard3_true (n : Nat) (h : 2048 ≤ n) (h2 : n < 65536)
    (hs : n < 55296 ∨ 57343 < n) :
    guard3 (224 + n / 4096) (128 + n / 64 % 64) (128 + n % 64) = true := by
  simp only [guard3, contByte, Bool.and_eq_true, decide_eq_true_eq]
  split_ifs with hA hB hB2 <;> simp only [beq_iff_eq] at * <;>
    refine ⟨⟨?_, ?_⟩, ?_, ?_⟩ <;> omega

theorem guard4_true (n : Nat) (h : 65536 ≤ n) (h2 : n < 1114112) :
    guard4 (240 + n / 262144) (128 + n / 4096 % 64) (128 + n / 64 % 64)
      (128 + n % 64) = true := by
  simp only [guard4, contByte, Bool.and_eq_true, decide_eq_true_eq]
  split_ifs with hA hB hB2 <;> simp only [beq_iff_eq] at * <;>
    refine ⟨⟨⟨?_, ?_⟩, ?_, ?_⟩, ?_, ?_⟩ <;> omega

theorem char2_eq (c : Char) (h1 : 128 ≤ c.toNat) (h2 : c.toNat < 2048) :
    char2 (192 + c.toNat / 64) (128 + c.toNat % 64) = c := by
  unfold char2
  have hh : (192 + c.toNat / 64 - 192) * 64 + (128 + c.toNat % 64 - 128) =
      c.toNat := by omega
  rw [hh, Char.ofNat_toNat]

theorem char3_eq (c : Char) (h1 : 2048 ≤ c.toNat) (h2 : c.toNat < 65536) :
    char3 (224 + c.toNat / 4096) (128 + c.toNat / 64 % 64)
      (128 + c.toNat % 64) = c := by
  unfold char3
  have hh : (224 + c.toNat / 4096 - 224) * 4096 +
      (128 + c.toNat / 64 % 64 - 128) * 64 + (128 + c.toNat % 64 - 128) =
      c.toNat := by omega
  rw [hh, Char.ofNat_toNat]

theorem char4_eq (c : Char) (h1 : 65536 ≤ c.toNat) (h2 : c.toNat < 1114112) :
    char4 (240 + c.toNat / 262144) (128 + c.toNat / 4096 % 64)
      (128 + c.toNat / 64 % 64) (128 + c.toNat % 64) = c := by
  unfold char4
  have hh : (240 + c.toNat / 262144 - 240) * 262144 +
      (128 + c.toNat / 4096 % 64 - 128) * 4096 +
      (128 + c.toNat / 64 % 64 - 128) * 64 + (128 + c.toNat % 64 - 128) =
      c.toNat := by omega
  rw [hh, Char.ofNat_toNat]

theorem utf8DecodeAux_encode : ∀ (s : List Char) (fuel : Nat),
    (utf8Encode s).length ≤ fuel →
    utf8DecodeAux fuel (utf8Encode s) = .ok s := by
  intro s
  induction s with
  | nil =>
    intro fuel _
    simp [utf8Encode, utf8DecodeAux_nil]
  | cons c s ih =>
    intro fuel h
    have henc : utf8Encode (c :: s) = utf8Bytes c ++ utf8Encode s := by
      simp [utf8Encode]
    rw [henc] at h ⊢
    have hv := char_valid c
    by_cases h1 : c.toNat < 128
    · have hb : utf8Bytes c = [c.toNat] := by simp [utf8Bytes, h1]
      rw [hb] at h ⊢
      cases fuel with
      | zero => simp at h
      | succ f =>
        rw [List.cons_append, List.nil_append, utf8DecodeAux_cons1 f _ _ h1]
        rw [ih f (by simp at h; omega)]
        simp [utf8DecCont, Char.ofNat_toNat]
    · by_cases h2 : c.toNat < 2048
      · have hb : utf8Bytes c = [192 + c.toNat / 64, 128 + c.toNat % 64] := by
          simp [utf8Bytes, h1, h2]
        rw [hb] at h ⊢
        cases fuel with
        | zero => simp at h
        | succ f =>
          rw [List.cons_append, List.cons_append, List.nil_append,
            utf8DecodeAux_cons2 f _ _ _ (by omega) (by omega)
              (guard2_true c.toNat)]
          rw [ih f (by simp at h; omega)]
          simp [utf8DecCont, char2_eq c (by omega) h2]
      · by_cases h3 : c.toNat < 65536
        · have hb : utf8Bytes c = [224 + c.toNat / 4096,
              128 + c.toNat / 64 % 64, 128 + c.toNat % 64] := by
            simp [utf8Bytes, h1, h2, h3]
          rw [hb] at h ⊢
          cases fuel with
          | zero => simp at h
          | succ f =>
            rw [List.cons_append, List.cons_append, List.cons_append,
              List.nil_append,
              utf8DecodeAux_cons3 f _ _ _ _ (by omega) (by omega)
                (guard3_true c.toNat (by omega) h3 (by omega))]
            rw [ih f (by simp at h; omega)]
            simp [utf8DecCont, char3_eq c (by omega) h3]
        · have h4 : c.toNat < 1114112 := by omega
          have hb : utf8Bytes c = [240 + c.toNat / 262144,
              128 + c.toNat / 4096 % 64, 128 + c.toNat / 64 % 64,
              128 + c.toNat % 64] := by
            simp [utf8Bytes, h1, h2, h3]
          rw [hb] at h ⊢
          cases fuel with
          | zero => simp at h
          | succ f =>
            rw [List.cons_append, List.cons_append, List.cons_append,
              List.cons_append, List.nil_append,
              utf8DecodeAux_cons4 f _ _ _ _ _ (by omega) (by omega)
                (guard4_true c.toNat (by omega) h4)]
            rw [ih f (by simp at h; omega)]
            simp [utf8DecCont, char4_eq c (by omega) h4]

theorem utf8_roundtrip (s : List Char) :
    utf8Decode (utf8Encode s) = .ok s :=
  utf8DecodeAux_encode s (utf8Encode s).length le_rfl

/-! ### rstrip / packField lemmas -/

theorem rstrip0_append_zeros (xs : List Nat) (k : Nat) :
    rstrip0 (xs ++ List.replicate k 0) = rstrip0 xs := by
  unfold rstrip0
  rw [List.reverse_append, List.reverse_replicate]
  congr 1
  induction k with
  | zero => simp
  | succ m ih => simp [List.replicate_succ, ih]

theorem rstrip0_no_zero (xs : List Nat) (hx : ∀ x ∈ xs, x ≠ 0) :
    rstrip0 xs = xs := by
  unfold rstrip0
  cases hrev : xs.reverse with
  | nil =>
    have : xs = [] := by simpa using congrArg List.reverse hrev
    simp [this]
  | cons a t =>
    have ha : a ∈ xs := by
      have : a ∈ xs.reverse := by rw [hrev]; exact List.mem_cons_self _ _
      simpa using this
    have : (a == 0) = false := by
      simpa using hx a ha
    rw [List.dropWhile_cons, this]
    simp [← hrev]

theorem utf8Bytes_ne_zero (c : Char) (hc : c ≠ nullChar) :
    ∀ b ∈ utf8Bytes c, b ≠ 0 := by
  have hzero : c.toNat ≠ 0 := by
    intro h
    apply hc
    have := congrArg Char.ofNat h
    rwa [Char.ofNat_toNat] at this
  intro b hb
  unfold utf8Bytes at hb
  dsimp only at hb
  split_ifs at hb <;> simp at hb <;> omega

theorem utf8Encode_ne_zero (s : List Char) (hs : nullChar ∉ s) :
    ∀ b ∈ utf8Encode s, b ≠ 0 := by
  intro b hb
  unfold utf8Encode at hb
  rw [List.mem_flatten] at hb
  rcases hb with ⟨l, hl, hbl⟩
  rw [List.mem_map] at hl
  rcases hl with ⟨c, hc, rfl⟩
  exact utf8Bytes_ne_zero c (fun h => hs (h ▸ hc)) b hbl

theorem length_le_utf8Encode_length (s : List Char) :
    s.length ≤ (utf8Encode s).length := by
  induction s with
  | nil => simp [utf8Encode]
  | cons c s ih =>
    have : 1 ≤ (utf8Bytes c).length := by
      unfold utf8Bytes
      dsimp only
      split_ifs <;> simp
    simp only [utf8Encode, List.map_cons, List.flatten_cons, List.length_append,
      List.length_cons]
    calc s.length + 1 ≤ (utf8Encode s).length + (utf8Bytes c).length := by
          have := ih
          simp only [utf8Encode] at this
          omega
      _ = (utf8Bytes c).length + (utf8Encode s).length := by omega
      _ = _ := by simp [utf8Encode]

theorem packField_length (w : Nat) (b : List Nat) (h : b.length ≤ w) :
    (packField w b).length = w := by
  unfold packField
  rw [List.length_append, List.length_take, List.length_replicate]
  omega

theorem packField_eq_self (w : Nat) (b : List Nat) (h : b.length = w) :
    packField w b = b := by
  unfold packField
  rw [h, Nat.sub_self]
  simp [List.take_of_length_le h.le]

theorem pidBytes_recodeParent (p : Parent) :
    Parent.pidBytes (recodeParent p) = Parent.pidBytes p := by
  unfold recodeParent
  split_ifs with h
  · simp [Parent.pidBytes, h]
  · simp [Parent.pidBytes]

theorem contains_eq_false_of_nmem {s : List Char} (h : nullChar ∉ s) :
    s.contains nullChar = false := by
  cases hq : s.contains nullChar
  · rfl
  · exact absurd (List.elem_iff.1 hq) h

theorem roundTrip (n : Node) (reg : Registry)
    (hb : (utf8Encode n.story).length ≤ STORY_SIZE)
    (hnn : nullChar ∉ n.story)
    (hpid : Parent.pidBytes n.parentRef = [] ∨
      ((Parent.pidBytes n.parentRef).length = DIGEST_SIZE ∧
        Parent.pidBytes n.parentRef ≠ List.replicate DIGEST_SIZE 0))
    (hinv : Registry.inv reg) (hwf : Registry.WFall reg) :
    ∃ reg2, Node.from_bytes (Node.to_bytes n reg) reg =
        .ok (Node.mk n.story (recodeParent n.parentRef), reg2) ∧
      Node.sid (Node.mk n.story (recodeParent n.parentRef)) = Node.sid n ∧
      (Node.to_bytes n reg).drop (DIGEST_SIZE + STORY_SIZE) =
        Node.sid (Node.mk n.story (recodeParent n.parentRef)) := by
  have hpidlen : (Parent.pidBytes n.parentRef).length ≤ DIGEST_SIZE := by
    rcases hpid with h | ⟨h, _⟩
    · rw [h]; simp [DIGEST_SIZE]
    · rw [h]
  have htb : Node.to_bytes n reg =
      packField DIGEST_SIZE (Parent.pidBytes n.parentRef) ++
        packField STORY_SIZE (utf8Encode n.story) ++ Node.sid n := by
    unfold Node.to_bytes
    rw [Node.pid_eq hwf, Node.sidR_eq hwf,
      packField_eq_self _ _ (Node.sid_length n)]
  have hlenA : (packField DIGEST_SIZE (Parent.pidBytes n.parentRef)).length =
      DIGEST_SIZE := packField_length _ _ hpidlen
  have hlenB : (packField STORY_SIZE (utf8Encode n.story)).length =
      STORY_SIZE := packField_length _ _ hb
  have hlenC : (Node.sid n).length = DIGEST_SIZE := Node.sid_length n
  have hlen : (Node.to_bytes n reg).length = TOTAL_SIZE := by
    rw [htb]
    simp only [List.length_append, hlenA, hlenB, hlenC]
    simp [DIGEST_SIZE, STORY_SIZE, TOTAL_SIZE]
  have htake : (Node.to_bytes n reg).take DIGEST_SIZE =
      packField DIGEST_SIZE (Parent.pidBytes n.parentRef) := by
    rw [htb, List.append_assoc]
    exact List.take_left' hlenA
  have hdroptake : ((Node.to_bytes n reg).drop DIGEST_SIZE).take STORY_SIZE =
      packField STORY_SIZE (utf8Encode n.story) := by
    rw [htb, List.append_assoc, List.drop_left' hlenA]
    exact List.take_left' hlenB
  have hdrop : (Node.to_bytes n reg).drop (DIGEST_SIZE + STORY_SIZE) =
      Node.sid n := by
    rw [htb, List.append_assoc, ← List.drop_drop STORY_SIZE DIGEST_SIZE,
      List.drop_left' hlenA, List.drop_left' hlenB]
  have hstory : rstrip0 (((Node.to_bytes n reg).drop DIGEST_SIZE).take
      STORY_SIZE) = utf8Encode n.story := by
    rw [hdroptake]
    unfold packField
    rw [List.take_of_length_le hb, rstrip0_append_zeros,
      rstrip0_no_zero _ (utf8Encode_ne_zero _ hnn)]
  have hdec : utf8Decode (rstrip0 (((Node.to_bytes n reg).drop
      DIGEST_SIZE).take STORY_SIZE)) = .ok n.story := by
    rw [hstory]; exact utf8_roundtrip _
  have hparg : (if (Node.to_bytes n reg).take DIGEST_SIZE ==
        List.replicate DIGEST_SIZE 0 then Parent.null
      else Parent.digest ((Node.to_bytes n reg).take DIGEST_SIZE)) =
      recodeParent n.parentRef := by
    rw [htake]
    rcases hpid with hp | ⟨hp64, hpne⟩
    · have hpack : packField DIGEST_SIZE (Parent.pidBytes n.parentRef) =
          List.replicate DIGEST_SIZE 0 := by
        rw [hp]; simp [packField]
      rw [hpack]
      simp [recodeParent, hp]
    · have hpack : packField DIGEST_SIZE (Parent.pidBytes n.parentRef) =
          Parent.pidBytes n.parentRef := packField_eq_self _ _ hp64
      rw [hpack]
      have hne2 : Parent.pidBytes n.parentRef ≠ [] := by
        intro hcon
        rw [hcon] at hp64
        simp [DIGEST_SIZE] at hp64
      have hbeq : (Parent.pidBytes n.parentRef ==
          List.replicate DIGEST_SIZE 0) = false := by
        rw [beq_eq_false_iff_ne]
        exact hpne
      rw [hbeq]
      simp [recodeParent, hne2]
  have hchars : ¬n.story.length > STORY_SIZE := by
    have := length_le_utf8Encode_length n.story
    omega
  obtain ⟨reg2, hini, hinv2, hwf2⟩ :=
    Node.init_ok n.story (recodeParent n.parentRef) reg hinv hchars
      (contains_eq_false_of_nmem hnn)
  have hpid2 : Parent.pidBytes (recodeParent n.parentRef) =
      Parent.pidBytes n.parentRef := pidBytes_recodeParent _
  have hsid2 : Node.sid (Node.mk n.story (recodeParent n.parentRef)) =
      Node.sid n := by
    rw [Node.sid_def (Node.mk n.story (recodeParent n.parentRef)),
      Node.sid_def n]
    have e1 : (Node.mk n.story (recodeParent n.parentRef)).parentRef =
        recodeParent n.parentRef := rfl
    have e2 : (Node.mk n.story (recodeParent n.parentRef)).story =
        n.story := rfl
    rw [e1, e2, hpid2]
  refine ⟨reg2, ?_, hsid2, ?_⟩
  · unfold Node.from_bytes
    rw [if_neg (by rw [hlen]; simp)]
    dsimp only
    rw [hdec]
    dsimp only
    rw [hparg]
    rw [hini]
    dsimp only
    have hsidR : (Node.mk n.story (recodeParent n.parentRef)).sidR reg2 =
        Node.sid n := by
      rw [Node.sidR_eq (hwf2 hwf), hsid2]
    rw [hdrop, hsidR]
    simp
  · rw [hdrop, hsid2]

/-! ### Error classification of the decoder -/

theorem utf8DecCont_error (c : Char) (r : Except PyError (List Char))
    (e : PyError) (h : utf8DecCont c r = .error e) : r = .error e := by
  cases r with
  | ok cs => simp [utf8DecCont] at h
  | error e2 => simpa [utf8DecCont] using h

theorem utf8DecodeAux_error : ∀ (fuel : Nat) (l : List Nat) (e : PyError),
    utf8DecodeAux fuel l = .error e → e = .unicodeError := by
  intro fuel
  induction fuel with
  | zero =>
    intro l e h
    cases l with
    | nil => simp [utf8DecodeAux] at h
    | cons b rest =>
      have hz : utf8DecodeAux 0 (b :: rest) = .error .unicodeError := rfl
      rw [hz] at h
      exact (Except.error.injEq .. ▸ h).symm
  | succ f ih =>
    intro l e h
    cases l with
    | nil => simp [utf8DecodeAux] at h
    | cons b rest =>
      rw [utf8DecodeAux.eq_def] at h
      by_cases h1 : b < 128
      · simp only [h1, if_pos] at h
        exact ih _ _ (utf8DecCont_error _ _ _ h)
      · simp only [h1, if_neg, if_false] at h
        by_cases h2 : b < 194
        · simp only [h2, if_pos] at h
          exact (Except.error.injEq .. ▸ h).symm
        · simp only [h2, if_neg, if_false] at h
          by_cases h3 : b < 224
          · simp only [h3, if_pos] at h
            cases rest with
            | nil => exact (Except.error.injEq .. ▸ h).symm
            | cons c1 rest2 =>
              by_cases hg : guard2 c1 = true
              · simp only [hg, if_pos] at h
                exact ih _ _ (utf8DecCont_error _ _ _ h)
              · simp only [hg, if_neg, if_false] at h
                exact (Except.error.injEq .. ▸ h).symm
          · simp only [h3, if_neg, if_false] at h
            by_cases h4 : b < 240
            · simp only [h4, if_pos] at h
              match rest with
              | [] => exact (Except.error.injEq .. ▸ h).symm
              | [c1] => exact (Except.error.injEq .. ▸ h).symm
              | c1 :: c2 :: rest2 =>
                by_cases hg : guard3 b c1 c2 = true
                · simp only [hg, if_pos] at h
                  exact ih _ _ (utf8DecCont_error _ _ _ h)
                · simp only [hg, if_neg, if_false] at h
                  exact (Except.error.injEq .. ▸ h).symm
            · simp only [h4, if_neg, if_false] at h
              by_cases h5 : b < 245
              · simp only [h5, if_pos] at h
                match rest with
                | [] => exact (Except.error.injEq .. ▸ h).symm
                | [c1] => exact (Except.error.injEq .. ▸ h).symm
                | [c1, c2] => exact (Except.error.injEq .. ▸ h).symm
                | c1 :: c2 :: c3 :: rest2 =>
                  by_cases hg : guard4 b c1 c2 c3 = true
                  · simp only [hg, if_pos] at h
                    exact ih _ _ (utf8DecCont_error _ _ _ h)
                  · simp only [hg, if_neg, if_false] at h
                    exact (Except.error.injEq .. ▸ h).symm
              · simp only [h5, if_neg, if_false] at h
                exact (Except.error.injEq .. ▸ h).symm

theorem Node.from_bytes_error {b : List Nat} {reg : Registry} {e : PyError}
    (hlen : b.length = TOTAL_SIZE) (hinv : Registry.inv reg)
    (h : Node.from_bytes b reg = .error e) : e.isValueError = true := by
  unfold Node.from_bytes at h
  rw [if_neg (by simp [hlen])] at h
  dsimp only at h
  cases hdec : utf8Decode (rstrip0 ((b.drop DIGEST_SIZE).take STORY_SIZE)) with
  | error e2 =>
    rw [hdec] at h
    cases h
    rw [utf8DecodeAux_error _ _ _ hdec]
    rfl
  | ok storyChars =>
    rw [hdec] at h
    dsimp only at h
    cases hini : Node.init storyChars
        (if b.take DIGEST_SIZE == List.replicate DIGEST_SIZE 0 then Parent.null
         else Parent.digest (b.take DIGEST_SIZE)) reg with
    | error e3 =>
      rw [hini] at h
      cases h
      exact Node.init_err hinv hini
    | ok pr =>
      obtain ⟨n2, reg2⟩ := pr
      rw [hini] at h
      dsimp only at h
      by_cases hs : (b.drop (DIGEST_SIZE + STORY_SIZE) == n2.sidR reg2) = true
      · rw [if_pos hs] at h
        cases h
      · rw [if_neg hs] at h
        cases h
        rfl

/-! ### Claim theorems -/

/-- C1: for every node and every well-formed registry state, the `sid`
property computes `q_hash(parent-identity-bytes ++ utf8(story))` — where the
parent-identity bytes (`Parent.pidBytes`) are empty for a root, the digest
itself for an unresolved parent, and the parent's own sid for a resolved
parent — the digest is 64 bytes long, the first read fills the `_sid` cache
with exactly that value, and every subsequent read returns the same bytes. -/
theorem pyble_C1 (n : Node) (reg : Registry) (hwf : Registry.WFall reg) :
    Node.sidR n reg =
      q_hash (Parent.pidBytes n.parentRef ++ utf8Encode n.story) ∧
    (Node.sidR n reg).length = DIGEST_SIZE ∧
    (NodeObj.readSid (NodeObj.new n) reg).1 = Node.sidR n reg ∧
    (NodeObj.readSid (NodeObj.new n) reg).2.sidCache =
      some (Node.sidR n reg) ∧
    (NodeObj.readSid ((NodeObj.readSid (NodeObj.new n) reg).2) reg).1 =
      (NodeObj.readSid (NodeObj.new n) reg).1 := by
  have h1 : Node.sidR n reg = Node.sid n := Node.sidR_eq hwf
  refine ⟨?_, ?_, rfl, rfl, rfl⟩
  · rw [h1, Node.sid_def]
  · rw [h1]; exact Node.sid_length n

/-- Witness for C1 at a concrete root node and the empty registry. -/
theorem pyble_C1_witness :
    Registry.WFall Registry.empty ∧
    (Node.sidR exN9 Registry.empty =
      q_hash (Parent.pidBytes exN9.parentRef ++ utf8Encode exN9.story) ∧
    (Node.sidR exN9 Registry.empty).length = DIGEST_SIZE ∧
    (NodeObj.readSid (NodeObj.new exN9) Registry.empty).1 =
      Node.sidR exN9 Registry.empty ∧
    (NodeObj.readSid (NodeObj.new exN9) Registry.empty).2.sidCache =
      some (Node.sidR exN9 Registry.empty) ∧
    (NodeObj.readSid ((NodeObj.readSid (NodeObj.new exN9)
        Registry.empty).2) Registry.empty).1 =
      (NodeObj.readSid (NodeObj.new exN9) Registry.empty).1) :=
  have hwf : Registry.WFall Registry.empty := by
    intro p hp
    simp [Registry.empty] at hp
  ⟨hwf, pyble_C1 exN9 Registry.empty hwf⟩

/-- C5: two node instances built from the same parent identity and the same
story compare equal under `Node.__eq__`, have the same sid (hence the same
`__hash__`), and a node compares equal to a raw bytes value iff that value
is its sid. -/
theorem pyble_C5 (m n : Node) (b : List Nat)
    (hpid : Parent.pidBytes m.parentRef = Parent.pidBytes n.parentRef)
    (hstory : m.story = n.story) :
    Node.eqPy m n = true ∧ Node.sid m = Node.sid n ∧
      Node.hashPy m = Node.hashPy n ∧
      (Node.eqBytesPy n b = true ↔ b = Node.sid n) := by
  have hsid : Node.sid m = Node.sid n := by
    rw [Node.sid_def, Node.sid_def, hpid, hstory]
  refine ⟨?_, hsid, hsid, ?_⟩
  · rw [Node.eqPy]
    simp [hpid, hstory]
  · simp [Node.eqBytesPy]

/-- Witness for C5: two structurally distinct instances, one holding a
resolved parent reference and the other only the parent's digest. -/
theorem pyble_C5_witness :
    Parent.pidBytes (Node.mk ['s'] (Parent.resolved exN9)).parentRef =
      Parent.pidBytes (Node.mk ['s']
        (Parent.digest (Node.sid exN9))).parentRef ∧
    (Node.mk ['s'] (Parent.resolved exN9)).story =
      (Node.mk ['s'] (Parent.digest (Node.sid exN9))).story ∧
    (Node.eqPy (Node.mk ['s'] (Parent.resolved exN9))
      (Node.mk ['s'] (Parent.digest (Node.sid exN9))) = true ∧
    Node.sid (Node.mk ['s'] (Parent.resolved exN9)) =
      Node.sid (Node.mk ['s'] (Parent.digest (Node.sid exN9))) ∧
    Node.hashPy (Node.mk ['s'] (Parent.resolved exN9)) =
      Node.hashPy (Node.mk ['s'] (Parent.digest (Node.sid exN9))) ∧
    (Node.eqBytesPy (Node.mk ['s'] (Parent.digest (Node.sid exN9))) [] =
        true ↔
      [] = Node.sid (Node.mk ['s'] (Parent.digest (Node.sid exN9))))) :=
  ⟨rfl, rfl, pyble_C5 _ _ [] rfl rfl⟩

/-- C6 counterexample: a story of 896 two-byte characters passes
validation (the code checks the character count), although its UTF-8
encoding is 1792 bytes, beyond the 896-byte story field; the claim's
"fails when the story exceeds 896 bytes" is false on the code. -/
theorem pyble_C6_cex :
    (Node.init (List.replicate 896 'é') Parent.null Registry.empty).isOk =
      true ∧ 896 < (utf8Encode (List.replicate 896 'é')).length := by
  constructor <;> decide

/-- C6 (amended): root construction `Node(story)` succeeds iff the story
has at most 896 characters (the code validates the character count, which
equals the byte count only for single-byte stories) and contains no null
character. -/
theorem pyble_C6 (story : List Char) (reg : Registry) :
    (Node.init story Parent.null reg).isOk = true ↔
      story.length ≤ STORY_SIZE ∧ nullChar ∉ story := by
  by_cases hlen : story.length > STORY_SIZE
  · have heq : Node.init story Parent.null reg = .error PyError.valueError := by
      simp [Node.init, hlen]
    rw [heq]
    constructor
    · intro h; cases h
    · intro ⟨h1, _⟩; omega
  · by_cases hnull : nullChar ∈ story
    · have heq : Node.init story Parent.null reg =
          .error PyError.valueError := by
        simp [Node.init, hlen, hnull]
      rw [heq]
      constructor
      · intro h; cases h
      · intro ⟨_, h2⟩; exact absurd hnull h2
    · constructor
      · intro _; exact ⟨by omega, hnull⟩
      · intro _
        unfold Node.init
        rw [if_neg hlen]
        have hc : story.contains nullChar = false :=
          contains_eq_false_of_nmem hnull
        simp only [hc, Bool.false_eq_true, if_false]
        rfl

/-- C10 (code bug evidence): opening a store whose backing file does not
exist creates an empty file and then crashes unpacking a 32-byte header
from zero bytes (struct.error), instead of constructing the store with
default values; loading from an existing 32-byte header does populate the
four fields. -/
theorem pyble_C10 :
    open_store none = .error PyError.structError ∧
      open_store (some hdr32) =
        .ok ⟨578437695752307201, 1157159078456920585,
          1735880461161533969, some 2314601843866147353⟩ := by
  constructor <;> rfl

/-- C9 counterexample: on a byte string that is not exactly 1024 bytes,
`struct.unpack` raises `struct.error`, which is not a `ValueError`, so
`identify_block` propagates the exception instead of returning nothing. -/
theorem pyble_C9_cex :
    Store.identify_block [] Registry.empty = .error PyError.structError := rfl

/-- C9 (amended): for every 1024-byte string and every registry state
satisfying the consistency invariant, `identify_block` never raises: it
returns the decoded node on success and nothing when decoding or sid
verification fails with a `ValueError` (the only errors 1024-byte input can
produce). -/
theorem pyble_C9 (b : List Nat) (reg : Registry)
    (hlen : b.length = TOTAL_SIZE) (hinv : Registry.inv reg) :
    (Store.identify_block b reg).isOk = true ∧
    (∀ n2 reg2, Node.from_bytes b reg = .ok (n2, reg2) →
      Store.identify_block b reg = .ok (some (n2, reg2))) := by
  constructor
  · unfold Store.identify_block
    cases hfb : Node.from_bytes b reg with
    | ok nr => rfl
    | error e =>
      have hve := Node.from_bytes_error hlen hinv hfb
      simp [hve, Except.isOk, Except.toBool]
  · intro n2 reg2 hfb
    simp [Store.identify_block, hfb]

/-- Witness for C9: an all-zero slot decodes to "no node" without raising,
and the encoding of a concrete root node decodes back to it. -/
theorem pyble_C9_witness :
    (List.replicate 1024 0).length = TOTAL_SIZE ∧
    Registry.inv Registry.empty ∧
    (Node.to_bytes exN9 Registry.empty).length = TOTAL_SIZE ∧
    (Store.identify_block (List.replicate 1024 0) Registry.empty).isOk =
      true ∧
    Store.identify_block (Node.to_bytes exN9 Registry.empty) Registry.empty =
      .ok (some (exN9, exReg9)) :=
  have hinv : Registry.inv Registry.empty := fun _ => rfl
  have hl1 : (List.replicate 1024 0).length = TOTAL_SIZE := by decide
  have hl2 : (Node.to_bytes exN9 Registry.empty).length = TOTAL_SIZE := by
    rfl
  ⟨hl1, hinv, hl2, (pyble_C9 _ _ hl1 hinv).1,
    (pyble_C9 _ _ hl2 hinv).2 exN9 exReg9 (by rfl)⟩

/-- C7: construction preserves the registry invariant (a key lies in the
identity map iff it lies in the children map), for roots, arbitrary
parents, and `branch`; and when the parent is found in exactly one of the
two maps, construction fails with `SyncError` (never repairing the maps). -/
theorem pyble_C7 :
    (∀ (story : List Char) (parent : Parent) (reg : Registry) (n : Node)
      (reg2 : Registry), Registry.inv reg →
      Node.init story parent reg = .ok (n, reg2) → Registry.inv reg2) ∧
    (∀ (self : Node) (story : List Char) (reg : Registry) (n : Node)
      (reg2 : Registry), Registry.inv reg →
      Node.branch self story reg = .ok (n, reg2) → Registry.inv reg2) ∧
    (∀ (story : List Char) (parent : Parent) (pk : RegEntry)
      (reg : Registry), Parent.key parent = some pk →
      ¬story.length > STORY_SIZE → story.contains nullChar = false →
      reg.memAll pk ≠ reg.memChildren pk →
      Node.init story parent reg = .error PyError.syncError) := by
  refine ⟨?_, ?_, ?_⟩
  · intro story parent reg n reg2 hinv h
    exact (Node.init_inv hinv h).1
  · intro self story reg n reg2 hinv h
    unfold Node.branch at h
    cases hini : Node.init story (Parent.resolved self) reg with
    | error e => rw [hini] at h; cases h
    | ok pr =>
      obtain ⟨n1, reg1⟩ := pr
      rw [hini] at h
      dsimp only at h
      have hinv1 := (Node.init_inv hinv hini).1
      cases hgc : reg1.getChildren (Sum.inr self) with
      | none => rw [hgc] at h; cases h
      | some set =>
        rw [hgc] at h
        cases h
        intro probe
        have hmc : reg1.memChildren (Sum.inr self) = true := by
          rw [← Registry.getChildren_isSome, hgc]; rfl
        rw [Registry.memAll_setChildren, Registry.memChildren_setChildren,
          hmc]
        simp [hinv1 probe]
  · intro story parent pk reg hk hlen hnc hne
    have hstep : ∀ self : Node, parentStep pk self reg =
        .error PyError.syncError := by
      intro self
      unfold parentStep
      have hand : (!reg.memAll pk && !reg.memChildren pk) = false := by
        cases hA : reg.memAll pk <;> cases hB : reg.memChildren pk <;>
          simp_all
      have hxor : (!reg.memAll pk != !reg.memChildren pk) = true := by
        cases hA : reg.memAll pk <;> cases hB : reg.memChildren pk <;>
          simp_all
      have hne2 : ¬((!reg.memAll pk) = !reg.memChildren pk) := by
        cases hA : reg.memAll pk <;> cases hB : reg.memChildren pk <;>
          simp_all
      simp only [hand, Bool.false_eq_true, if_false, bne_iff_ne, ne_eq,
        ite_not]
      rw [if_neg (by simpa using hne2)]
    unfold Node.init
    rw [if_neg hlen]
    simp only [hnc, Bool.false_eq_true, if_false]
    cases parent with
    | null => simp [Parent.key] at hk
    | digest d =>
      have hpk : pk = Sum.inl d := by
        simpa [Parent.key] using hk.symm
      subst hpk
      dsimp only
      rw [hstep]
    | resolved q =>
      have hpk : pk = Sum.inr q := by
        simpa [Parent.key] using hk.symm
      subst hpk
      dsimp only
      rw [hstep]

/-- Witness for C7: invariant preservation at a concrete root
construction, at a concrete branch, and a concrete diverged registry on
which construction fails with `SyncError`. -/
theorem pyble_C7_witness :
    Registry.inv Registry.empty ∧
    Node.init ['a'] Parent.null Registry.empty = .ok (exN9, exReg9) ∧
    Registry.inv exReg9 ∧
    Parent.key (Parent.digest [5]) = some (Sum.inl [5]) ∧
    (Registry.mk [(Sum.inl [5], Sum.inl [5])] []).memAll (Sum.inl [5]) ≠
      (Registry.mk [(Sum.inl [5], Sum.inl [5])] []).memChildren
        (Sum.inl [5]) ∧
    Node.init ['a'] (Parent.digest [5])
        (Registry.mk [(Sum.inl [5], Sum.inl [5])] []) =
      .error PyError.syncError :=
  have hinv : Registry.inv Registry.empty := fun _ => rfl
  have hini : Node.init ['a'] Parent.null Registry.empty =
      .ok (exN9, exReg9) := by rfl
  have hne : (Registry.mk [(Sum.inl [5], Sum.inl [5])] []).memAll
        (Sum.inl [5]) ≠
      (Registry.mk [(Sum.inl [5], Sum.inl [5])] []).memChildren
        (Sum.inl [5]) := by decide
  ⟨hinv, hini, pyble_C7.1 ['a'] Parent.null Registry.empty exN9 exReg9 hinv
      hini,
    rfl, hne,
    pyble_C7.2.2 ['a'] (Parent.digest [5]) (Sum.inl [5]) _ rfl
      (by decide) (by decide) hne⟩

theorem pyKeyEq_inl_iff (d : List Nat) (k : RegEntry) :
    pyKeyEq (Sum.inl d) k = true ↔ RegEntry.idBytes k = d := by
  cases k with
  | inl b =>
    simp only [pyKeyEq, RegEntry.idBytes, beq_iff_eq]
    exact eq_comm
  | inr n =>
    simp only [pyKeyEq, RegEntry.idBytes, beq_iff_eq]
    exact eq_comm

theorem getAll_of_mem : ∀ (l : List (RegEntry × RegEntry)) (d : List Nat)
    (k0 v : RegEntry),
    (∀ q ∈ l, pyKeyEq q.1 q.2 = true) →
    l.Pairwise (fun a b => RegEntry.idBytes a.1 ≠ RegEntry.idBytes b.1) →
    (k0, v) ∈ l → RegEntry.idBytes k0 = d →
    (l.find? fun e => pyKeyEq (Sum.inl d) e.1).map Prod.snd = some v := by
  intro l
  induction l with
  | nil => intro d k0 v _ _ hm _; cases hm
  | cons q rest ih =>
    intro d k0 v hwf hnd hm hid
    obtain ⟨kq, vq⟩ := q
    rcases List.mem_cons.1 hm with he | ht
    · obtain ⟨h1, h2⟩ := Prod.mk.injEq .. ▸ he
      subst h1; subst h2
      rw [List.find?_cons_of_pos _ (by simpa [pyKeyEq_inl_iff] using hid)]
      rfl
    · have hkq : RegEntry.idBytes kq ≠ d := by
        have := (List.pairwise_cons.1 hnd).1 (k0, v) ht
        simpa [hid] using this
      rw [List.find?_cons_of_neg _ (by simpa [pyKeyEq_inl_iff] using hkq)]
      exact ih d k0 v (fun p hp => hwf p (List.mem_cons_of_mem _ hp))
        (List.pairwise_cons.1 hnd).2 ht hid

/-- C8: for a node whose stored parent slot is an unresolved digest `d`,
reading the `parent` property returns the registered live node whose sid is
`d` when the registry holds one, and the raw digest `d` unchanged
otherwise. -/
theorem pyble_C8 (n : Node) (d : List Nat) (reg : Registry)
    (hp : n.parentRef = Parent.digest d)
    (hwf : Registry.WFall reg) (hnd : Registry.allNoDupIds reg) :
    (∀ (k0 : RegEntry) (p : Node), (k0, Sum.inr p) ∈ reg.all → p.sid = d →
      Node.parent n reg = some (Sum.inr p)) ∧
    ((∀ (k0 : RegEntry) (p : Node), (k0, Sum.inr p) ∈ reg.all →
        p.sid ≠ d) →
      Node.parent n reg = some (Sum.inl d)) := by
  constructor
  · intro k0 p hmem hsid
    have hid : RegEntry.idBytes k0 = d := by
      have h1 := pyKeyEq_idBytes (hwf _ hmem)
      simpa [RegEntry.idBytes, hsid] using h1
    have hga : reg.getAll (Sum.inl d) = some (Sum.inr p) :=
      getAll_of_mem reg.all d k0 (Sum.inr p) hwf hnd hmem hid
    unfold Node.parent
    rw [hp]
    dsimp only
    rw [hga]
  · intro hno
    unfold Node.parent
    rw [hp]
    dsimp only
    cases hga : reg.getAll (Sum.inl d) with
    | none => rfl
    | some v =>
      rcases Registry.getAll_eq_some hga with ⟨k0, hmem, hk⟩
      have h1 : RegEntry.idBytes (Sum.inl d) = RegEntry.idBytes k0 :=
        pyKeyEq_idBytes hk
      have h2 : RegEntry.idBytes k0 = RegEntry.idBytes v :=
        pyKeyEq_idBytes (hwf _ hmem)
      have hidv : RegEntry.idBytes v = d := by
        rw [← h2, ← h1]; rfl
      cases v with
      | inl b =>
        have hb : b = d := hidv
        subst hb
        rfl
      | inr p =>
        exact absurd (show p.sid = d from hidv) (hno k0 p hmem)

/-- Witness for C8: a child holding only `exN9`'s digest resolves to the
live `exN9` in a registry that contains it, and keeps the raw digest in an
empty registry. -/
theorem pyble_C8_witness :
    (Node.mk ['c'] (Parent.digest (Node.sid exN9))).parentRef =
      Parent.digest (Node.sid exN9) ∧
    Registry.WFall exReg9 ∧ Registry.allNoDupIds exReg9 ∧
    (Sum.inr exN9, Sum.inr exN9) ∈ exReg9.all ∧
    Node.parent (Node.mk ['c'] (Parent.digest (Node.sid exN9))) exReg9 =
      some (Sum.inr exN9) ∧
    Node.parent (Node.mk ['c'] (Parent.digest [7])) Registry.empty =
      some (Sum.inl [7]) := by
  have hwf : Registry.WFall exReg9 := by
    intro p hp
    rw [List.mem_singleton.1 hp]
    exact pyKeyEq_rfl _
  have hnd : Registry.allNoDupIds exReg9 := by
    simp [Registry.allNoDupIds, exReg9]
  refine ⟨rfl, hwf, hnd, List.mem_singleton.2 rfl, ?_, ?_⟩
  · exact (pyble_C8 (Node.mk ['c'] (Parent.digest (Node.sid exN9)))
        (Node.sid exN9) exReg9 rfl hwf hnd).1 (Sum.inr exN9) exN9
      (List.mem_singleton.2 rfl) rfl
  · exact (pyble_C8 (Node.mk ['c'] (Parent.digest [7])) [7] Registry.empty
        rfl (fun p hp => by simp [Registry.empty] at hp)
        (by simp [Registry.allNoDupIds, Registry.empty])).2
      (fun k0 p hmem => by simp [Registry.empty] at hmem)

theorem retraceAux_acc : ∀ (fuel : Nat) (cur : Node)
    (stop : Option RegEntry) (reg : Registry) (acc l : List Node),
    retraceAux fuel cur stop reg acc = some l → ∃ t, l = acc ++ t := by
  intro fuel
  induction fuel with
  | zero => intro cur stop reg acc l h; cases h
  | succ f ih =>
    intro cur stop reg acc l h
    rw [retraceAux.eq_def] at h
    dsimp only at h
    by_cases hc : (pyNe (Node.parent cur reg) stop &&
        !isBytesEntry (Node.parent cur reg)) = true
    · rw [if_pos hc] at h
      cases hpar : Node.parent cur reg with
      | none =>
        rw [hpar] at h
        cases h
        exact ⟨[], by simp⟩
      | some v =>
        cases v with
        | inl b =>
          rw [hpar] at h
          cases h
          exact ⟨[], by simp⟩
        | inr p =>
          rw [hpar] at h
          rcases ih p stop reg (acc ++ [p]) l h with ⟨t, ht⟩
          exact ⟨p :: t, by simp [ht]⟩
    · rw [if_neg hc] at h
      cases h
      exact ⟨[], by simp⟩

/-- C4: `retrace` starts at the node itself; it stops (returning the
accumulated list) when the resolved parent equals `stop` under Python
equality, when the parent is an unresolved digest, or when there is no
parent; otherwise it appends the resolved parent node and walks on.  The §8
example behaves as claimed: with root `R`, `A = R.branch("x")` and
`B = A.branch("y")`, `B.retrace()` is `[B, A, R]` and `B.retrace(stop=A)`
is `[B]`. -/
theorem pyble_C4 :
    (∀ (fuel : Nat) (cur : Node) (stop : Option RegEntry) (reg : Registry)
      (acc : List Node), pyNe (Node.parent cur reg) stop = false →
      retraceAux (fuel + 1) cur stop reg acc = some acc) ∧
    (∀ (fuel : Nat) (cur : Node) (stop : Option RegEntry) (reg : Registry)
      (acc : List Node) (d : List Nat),
      Node.parent cur reg = some (Sum.inl d) →
      retraceAux (fuel + 1) cur stop reg acc = some acc) ∧
    (∀ (fuel : Nat) (cur : Node) (stop : Option RegEntry) (reg : Registry)
      (acc : List Node), Node.parent cur reg = none →
      retraceAux (fuel + 1) cur stop reg acc = some acc) ∧
    (∀ (fuel : Nat) (cur : Node) (stop : Option RegEntry) (reg : Registry)
      (acc : List Node) (p : Node),
      Node.parent cur reg = some (Sum.inr p) →
      pyNe (some (Sum.inr p)) stop = true →
      retraceAux (fuel + 1) cur stop reg acc =
        retraceAux fuel p stop reg (acc ++ [p])) ∧
    (∀ (n : Node) (stop : Option RegEntry) (reg : Registry) (l : List Node),
      Node.retrace n stop reg = some l → l.head? = some n) ∧
    exampleRetraces = .ok (some [exB, exA, exR], some [exB]) := by
  refine ⟨?_, ?_, ?_, ?_, ?_, rfl⟩
  · intro fuel cur stop reg acc hne
    rw [retraceAux.eq_def]
    dsimp only
    rw [if_neg (by simp [hne])]
  · intro fuel cur stop reg acc d hpar
    rw [retraceAux.eq_def]
    dsimp only
    by_cases hc : (pyNe (Node.parent cur reg) stop &&
        !isBytesEntry (Node.parent cur reg)) = true
    · rw [hpar] at hc
      simp [isBytesEntry] at hc
    · rw [if_neg hc]
  · intro fuel cur stop reg acc hpar
    rw [retraceAux.eq_def]
    dsimp only
    by_cases hc : (pyNe (Node.parent cur reg) stop &&
        !isBytesEntry (Node.parent cur reg)) = true
    · rw [if_pos hc, hpar]
    · rw [if_neg hc]
  · intro fuel cur stop reg acc p hpar hne
    rw [retraceAux.eq_def]
    dsimp only
    rw [if_pos (by rw [hpar]; simp [isBytesEntry, hne]), hpar]
  · intro n stop reg l h
    rcases retraceAux_acc _ _ _ _ _ _ h with ⟨t, ht⟩
    rw [ht]
    rfl

/-- Witness for C4: each stopping rule and the step rule at concrete nodes
and registries. -/
theorem pyble_C4_witness :
    pyNe (Node.parent exR Registry.empty) none = false ∧
    retraceAux 1 exR none Registry.empty [exR] = some [exR] ∧
    Node.parent (Node.mk ['c'] (Parent.digest [5])) Registry.empty =
      some (Sum.inl [5]) ∧
    retraceAux 1 (Node.mk ['c'] (Parent.digest [5])) none Registry.empty
      [Node.mk ['c'] (Parent.digest [5])] =
      some [Node.mk ['c'] (Parent.digest [5])] ∧
    Node.parent exR Registry.empty = none ∧
    retraceAux 1 exR (some (Sum.inl [9])) Registry.empty [exR] =
      some [exR] ∧
    Node.parent exB Registry.empty = some (Sum.inr exA) ∧
    pyNe (some (Sum.inr exA)) none = true ∧
    retraceAux 1 exB none Registry.empty [exB] =
      retraceAux 0 exA none Registry.empty ([exB] ++ [exA]) ∧
    Node.retrace exR none Registry.empty = some [exR] ∧
    ([exR] : List Node).head? = some exR :=
  ⟨rfl, pyble_C4.1 0 exR none Registry.empty [exR] rfl,
    rfl, pyble_C4.2.1 0 (Node.mk ['c'] (Parent.digest [5])) none
      Registry.empty [Node.mk ['c'] (Parent.digest [5])] [5] rfl,
    rfl, pyble_C4.2.2.1 0 exR (some (Sum.inl [9])) Registry.empty [exR] rfl,
    rfl, rfl,
    pyble_C4.2.2.2.1 0 exB none Registry.empty [exB] exA rfl rfl,
    rfl,
    pyble_C4.2.2.2.2.1 exR none Registry.empty [exR] rfl⟩

/-- C2 (amended): for every node whose story is at most 896 UTF-8 bytes
with no null, whose parent identity is either empty (root) or a 64-byte
digest different from the all-zero root sentinel, and for every consistent
registry state, decoding the encoding succeeds and returns a node with the
same story, the same parent identity and the same sid, and the sid
embedded at bytes 960..1023 equals the decoded node's sid. -/
theorem pyble_C2 (n : Node) (reg : Registry)
    (hb : (utf8Encode n.story).length ≤ STORY_SIZE)
    (hnn : nullChar ∉ n.story)
    (hpid : Parent.pidBytes n.parentRef = [] ∨
      ((Parent.pidBytes n.parentRef).length = DIGEST_SIZE ∧
        Parent.pidBytes n.parentRef ≠ List.replicate DIGEST_SIZE 0))
    (hinv : Registry.inv reg) (hwf : Registry.WFall reg) :
    ∃ reg2, Node.from_bytes (Node.to_bytes n reg) reg =
        .ok (Node.mk n.story (recodeParent n.parentRef), reg2) ∧
      Node.sid (Node.mk n.story (recodeParent n.parentRef)) = Node.sid n ∧
      (Node.mk n.story (recodeParent n.parentRef)).story = n.story ∧
      Parent.pidBytes (Node.mk n.story (recodeParent n.parentRef)).parentRef
        = Parent.pidBytes n.parentRef ∧
      (Node.to_bytes n reg).drop (DIGEST_SIZE + STORY_SIZE) =
        Node.sid (Node.mk n.story (recodeParent n.parentRef)) := by
  obtain ⟨reg2, h1, h2, h3⟩ := roundTrip n reg hb hnn hpid hinv hwf
  exact ⟨reg2, h1, h2, rfl, pidBytes_recodeParent _, h3⟩

/-- C2 counterexample: a node whose unresolved parent digest is the 64
all-zero bytes (a "valid node" by the claim's condition, which constrains
only the story) does not round-trip: the parent field collides with the
wire format's root sentinel, the decoder rebuilds a root, the recomputed
sid differs from the embedded one, and `from_bytes` raises `ValueError`. -/
theorem pyble_C2_cex :
    (utf8Encode (Node.mk []
      (Parent.digest (List.replicate 64 0))).story).length ≤ STORY_SIZE ∧
    nullChar ∉ (Node.mk [] (Parent.digest (List.replicate 64 0))).story ∧
    Node.from_bytes
      (Node.to_bytes (Node.mk [] (Parent.digest (List.replicate 64 0)))
        Registry.empty) Registry.empty = .error PyError.valueError := by
  refine ⟨by decide, by decide, ?_⟩
  rfl

/-- Witness for C2 at a concrete root node and the empty registry. -/
theorem pyble_C2_witness :
    (utf8Encode exN9.story).length ≤ STORY_SIZE ∧
    nullChar ∉ exN9.story ∧
    Parent.pidBytes exN9.parentRef = [] ∧
    Registry.inv Registry.empty ∧ Registry.WFall Registry.empty ∧
    (∃ reg2, Node.from_bytes (Node.to_bytes exN9 Registry.empty)
        Registry.empty =
        .ok (Node.mk exN9.story (recodeParent exN9.parentRef), reg2) ∧
      Node.sid (Node.mk exN9.story (recodeParent exN9.parentRef)) =
        Node.sid exN9 ∧
      (Node.mk exN9.story (recodeParent exN9.parentRef)).story =
        exN9.story ∧
      Parent.pidBytes
          (Node.mk exN9.story (recodeParent exN9.parentRef)).parentRef =
        Parent.pidBytes exN9.parentRef ∧
      (Node.to_bytes exN9 Registry.empty).drop (DIGEST_SIZE + STORY_SIZE) =
        Node.sid (Node.mk exN9.story (recodeParent exN9.parentRef))) :=
  have hwf : Registry.WFall Registry.empty := by
    intro p hp
    simp [Registry.empty] at hp
  ⟨by decide, by decide, rfl, fun _ => rfl, hwf,
    pyble_C2 exN9 Registry.empty (by decide) (by decide) (Or.inl rfl)
      (fun _ => rfl) hwf⟩
